import Mathlib

/-!
Verification of the codeprinter PPR (Personalized Project Reference) module:
a shallow embedding, in Lean 4, of the workspace store, the PDF save/load
pipeline, the metadata codec and the reconstruction algorithm found in
src/ppr/ppr-module.js, src/ppr/pdf-saver.js and src/ppr/pdf-loader.js.

Conventions used throughout:
* JavaScript strings are modelled as Lean `String` (or `List Char` where the
  byte-level codec is concerned); JS numbers appearing in this code are
  integers in every reachable path, so they are modelled as `ℤ`/`ℕ`.
* JS objects keyed by segment number are modelled as association lists or as
  functions `ℕ → _`; JS `Map`/`Set` are modelled as association lists /
  lists, which preserve the insertion order that the JS code relies on.
* Asynchronous UI side effects (toasts, progress callbacks, DOM rendering)
  are irrelevant to the verified data flow and are omitted.
-/

/-- SEGMENT_COUNT from ppr-state.js. -/
def SEGMENT_COUNT : ℕ := 4

/-- The fixed list of segment numbers 1..SEGMENT_COUNT. -/
def segmentNumbers : List ℕ := [1, 2, 3, 4]

/-- Concatenation of a list of lists (used to splice per-segment blocks). -/
def concatAll {α : Type} : List (List α) → List α
  | [] => []
  | l :: ls => l ++ concatAll ls

/-- The deterministic alias string assigned at save time to the k-th image
(1-based) of a segment, from buildPdfPayload in ppr-module.js. -/
def mkAlias (segment k : ℕ) : String :=
  "seg" ++ toString segment ++ "-img" ++ toString k

/-! ## Workspace Store (ppr-state.js + ppr-module.js)

The four global segment-indexed arrays `segmentImages`,
`imageCompressionState`, `imageProcessingErrors`, `imageDimensions`. -/

/-- The mutable module state of ppr-state.js: four parallel segment-indexed
arrays. Segments not yet touched hold the empty list (createSegmentMap
initialises keys 1..4 to `[]`; the model uses `[]` for every key). -/
structure PprState where
  segmentImages : ℕ → List String
  imageCompressionState : ℕ → List Bool
  imageProcessingErrors : ℕ → List Bool
  imageDimensions : ℕ → List (Option (ℕ × ℕ))

/-- The initial state created by createSegmentMap in ppr-state.js. -/
def initPprState : PprState :=
  { segmentImages := fun _ => []
    imageCompressionState := fun _ => []
    imageProcessingErrors := fun _ => []
    imageDimensions := fun _ => [] }

/-- addImage from ppr-module.js (lines 404-415): unconditionally appends the
data URL and pushes the default metadata (compression flag `false` = raw,
error flag `false`, cached dimensions `null`).  UI refresh calls are omitted. -/
def addImage (dataUrl : String) (segmentNum : ℕ) (st : PprState) : PprState :=
  { segmentImages :=
      Function.update st.segmentImages segmentNum
        (st.segmentImages segmentNum ++ [dataUrl])
    imageCompressionState :=
      Function.update st.imageCompressionState segmentNum
        (st.imageCompressionState segmentNum ++ [false])
    imageProcessingErrors :=
      Function.update st.imageProcessingErrors segmentNum
        (st.imageProcessingErrors segmentNum ++ [false])
    imageDimensions :=
      Function.update st.imageDimensions segmentNum
        (st.imageDimensions segmentNum ++ [none]) }

/-- removeImage from ppr-module.js (lines 422-431): `splice(index, 1)` on all
four parallel arrays, modelled by `List.eraseIdx` (identical no-op behaviour
when the index is out of range). -/
def removeImage (index : ℕ) (segmentNum : ℕ) (st : PprState) : PprState :=
  { segmentImages :=
      Function.update st.segmentImages segmentNum
        ((st.segmentImages segmentNum).eraseIdx index)
    imageCompressionState :=
      Function.update st.imageCompressionState segmentNum
        ((st.imageCompressionState segmentNum).eraseIdx index)
    imageProcessingErrors :=
      Function.update st.imageProcessingErrors segmentNum
        ((st.imageProcessingErrors segmentNum).eraseIdx index)
    imageDimensions :=
      Function.update st.imageDimensions segmentNum
        ((st.imageDimensions segmentNum).eraseIdx index) }

/-- applyLoadedData from ppr-module.js (lines 478-512), restricted to its
state effect.  Each entry of `data.images` is a pair of the parsed segment
key (`parseInt(segmentKey, 10)` modelled as `Option ℕ`: `none` when the key
is not an integer, in which case the entry is skipped) and the image list.
For each integer key the four arrays are reset together: the images verbatim,
the compression flags all `true` (trusted / pre-compressed), the error flags
all `false` and the cached dimensions all `null`. -/
def applyLoadedData (images : List (Option ℕ × List String)) (st : PprState) :
    PprState :=
  images.foldl
    (fun s kv =>
      match kv.1 with
      | none => s
      | some n =>
        { segmentImages := Function.update s.segmentImages n kv.2
          imageCompressionState :=
            Function.update s.imageCompressionState n
              (List.replicate kv.2.length true)
          imageProcessingErrors :=
            Function.update s.imageProcessingErrors n
              (List.replicate kv.2.length false)
          imageDimensions :=
            Function.update s.imageDimensions n
              (List.replicate kv.2.length none) })
    st

/-- The store-mutating operations reachable from the UI / load flow. -/
inductive PprOp where
  | add (dataUrl : String) (segmentNum : ℕ)
  | remove (index : ℕ) (segmentNum : ℕ)
  | load (images : List (Option ℕ × List String))

/-- Apply one operation. -/
def applyPprOp (op : PprOp) (st : PprState) : PprState :=
  match op with
  | .add dataUrl segmentNum => addImage dataUrl segmentNum st
  | .remove index segmentNum => removeImage index segmentNum st
  | .load images => applyLoadedData images st

/-- Run a sequence of operations from a given state. -/
def runPprOps (ops : List PprOp) (st : PprState) : PprState :=
  ops.foldl (fun s op => applyPprOp op s) st

/-- The alignment invariant: for every segment the four parallel
per-image metadata arrays have equal length. -/
def alignedState (st : PprState) : Prop :=
  ∀ seg : ℕ,
    (st.imageCompressionState seg).length = (st.segmentImages seg).length ∧
    (st.imageProcessingErrors seg).length = (st.segmentImages seg).length ∧
    (st.imageDimensions seg).length = (st.segmentImages seg).length

/-! ## Interactive upload path (handleFiles, ppr-module.js lines 978-1014) -/

/-- A dropped/selected file: its name and the data URL read from it. -/
structure JsFile where
  name : String
  data : String

/-- ALLOWED_IMAGE_EXTENSIONS from ppr-module.js. -/
def allowedImageExtensions : List String :=
  [".png", ".jpg", ".jpeg", ".gif", ".webp"]

/-- isAllowedImageFile from ppr-module.js: lower-cases the name and tests the
extension whitelist. -/
def isAllowedImageFile (f : JsFile) : Bool :=
  allowedImageExtensions.any (fun ext => f.name.toLower.endsWith ext)

/-- JavaScript `list.slice(0, r)` where `r` may be negative
(`slice(0, -1)` drops the final element). -/
def jsSliceToEnd {α : Type} (r : ℤ) (l : List α) : List α :=
  if r < 0 then l.take ((l.length + r).toNat) else l.take r.toNat

/-- handleFiles from ppr-module.js, restricted to its state effect: computes
`remainingSlots = 3 - current count`, filters the files through the extension
whitelist, keeps `valid.slice(0, remainingSlots)` and adds each kept file via
addImage.  Toast notifications are omitted. -/
def handleFiles (files : List JsFile) (segmentNum : ℕ) (st : PprState) :
    PprState :=
  let remainingSlots : ℤ := 3 - (st.segmentImages segmentNum).length
  let valid := files.filter isAllowedImageFile
  let filesToAdd := jsSliceToEnd remainingSlots valid
  filesToAdd.foldl (fun s f => addImage f.data segmentNum s) st

/-- A concrete state whose segment 1 already holds the maximum 3 images. -/
def stThreeImages : PprState :=
  applyLoadedData [(some 1, ["a", "b", "c"])] initPprState

/-! ## Compression pipeline (compressImagesAndBuildPayload,
ppr-module.js lines 102-144)

The per-image loop reads the data URL and its compression flag; a trusted
(pre-compressed) image is passed through verbatim, otherwise the compression
function runs and may fail, in which case the image is skipped and the
failure recorded.  The compression function is a parameter (it is passed in
from pdf-saver.js); failures are modelled by `Except`. -/

/-- The inner loop of compressImagesAndBuildPayload for one segment: `urls`
is `segmentImages[segment]`, `flags` is `imageCompressionState[segment]`
(`flags.getD idx false` models the undefined-is-falsy array read), and `idx`
is the running index.  Returns the compressed data URLs in order plus the
indices of failed images.  The per-image error-flag UI updates are omitted. -/
def compressSegmentAux (f : String → Except Unit String) (flags : List Bool) :
    ℕ → List String → List String × List ℕ
  | _, [] => ([], [])
  | idx, url :: rest =>
    let isPreCompressed := flags.getD idx false
    let result := if isPreCompressed then Except.ok url else f url
    match result with
    | .ok r =>
      let p := compressSegmentAux f flags (idx + 1) rest
      (r :: p.1, p.2)
    | .error _ =>
      let p := compressSegmentAux f flags (idx + 1) rest
      (p.1, idx :: p.2)

/-- compressImagesAndBuildPayload over all four segments: returns the
per-segment compressed lists and the failure records `(segment, index)`. -/
def compressImagesAndBuildPayload (f : String → Except Unit String)
    (st : PprState) : List (ℕ × List String) × List (ℕ × ℕ) :=
  let results := segmentNumbers.map (fun seg =>
    (seg, compressSegmentAux f (st.imageCompressionState seg) 0
      (st.segmentImages seg)))
  (results.map (fun r => (r.1, r.2.1)),
   concatAll (results.map (fun r => r.2.2.map (fun i => (r.1, i)))))

/-! ## Metadata payload (buildPdfPayload, ppr-module.js lines 154-179) -/

/-- The object literal returned as `payload` by buildPdfPayload, plus (as
`none`-valued fields) the keys that a manifest may carry after a round trip
through parsePprJson.  buildPdfPayload itself never sets `imagePlacements`
(the field stays `none`): the recorded placements are never attached to the
payload anywhere in generatePdfDocument. -/
structure PdfMetadata where
  studentName : String
  segments : List (ℕ × ℕ)
  timestamp : String
  imageManifest : Option (List (String × ℕ))
  imagePlacements : Option (List (String × ℕ × ℕ))
deriving DecidableEq

/-- The aliases generated for one segment holding `count` images:
`seg{N}-img{1}` .. `seg{N}-img{count}` (brace-free spelling via mkAlias). -/
def segmentAliases (segment count : ℕ) : List String :=
  (List.range count).map (fun i => mkAlias segment (i + 1))

/-- buildPdfPayload from ppr-module.js (lines 154-179): walks segments 1..4,
assigns aliases in segment-ascending, insertion order, and returns the
payload (studentName, per-segment counts, timestamp, imageManifest) together
with the per-segment alias map.  The count of a segment is
`compressedImages[segment]?.length || 0`. -/
def buildPdfPayload (compressedImages : List (ℕ × List String))
    (studentName timestamp : String) :
    PdfMetadata × List (ℕ × List String) :=
  let countOf := fun seg => ((List.lookup seg compressedImages).getD []).length
  let aliasMap := segmentNumbers.map (fun seg => (seg, segmentAliases seg (countOf seg)))
  let imageManifest := concatAll (segmentNumbers.map (fun seg =>
    (segmentAliases seg (countOf seg)).map (fun a => (a, seg))))
  ({ studentName := studentName
     segments := compressedImages.map (fun kv => (kv.1, kv.2.length))
     timestamp := timestamp
     imageManifest := some imageManifest
     imagePlacements := none },
   aliasMap)

/-! ## The JSON value serialized by embedPayloadMetadata

`JSON.stringify(payload)` serializes exactly the keys present on the payload
object, in insertion order.  The JSValue rendering below makes the key set
explicit so that the absence of `imagePlacements` is a statement about the
serialized manifest. -/

/-- A JavaScript/JSON value.  Numbers are restricted to integers, which
covers every value this program stores in a manifest. -/
inductive JSValue where
  | jnull
  | jbool (b : Bool)
  | jnum (n : ℤ)
  | jstr (s : String)
  | jarr (elems : List JSValue)
  | jobj (fields : List (String × JSValue))

/-- The key list of a JSON object value. -/
def jsObjKeys : JSValue → List String
  | .jobj kvs => kvs.map (fun kv => kv.1)
  | _ => []

/-- Field lookup on a JSON object value (JSON.parse keeps the last of
duplicate keys; object literals in this program never duplicate keys). -/
def jsField (v : JSValue) (k : String) : Option JSValue :=
  match v with
  | .jobj kvs => ((kvs.filter (fun p => p.1 == k)).getLast?).map (fun p => p.2)
  | _ => none

/-- The JSON object `JSON.stringify` sees when embedPayloadMetadata
(ppr-module.js lines 188-199) serializes a payload: the four keys written by
the buildPdfPayload object literal, in source order, plus `imagePlacements`
only when that field is actually present on the object. -/
def payloadJson (md : PdfMetadata) : JSValue :=
  .jobj
    ([("studentName", .jstr md.studentName),
      ("segments", .jobj (md.segments.map (fun kv =>
        (toString kv.1, JSValue.jnum (kv.2 : ℤ))))),
      ("timestamp", .jstr md.timestamp)]
     ++ (match md.imageManifest with
         | some m => [("imageManifest", JSValue.jarr (m.map (fun e =>
             JSValue.jobj [("alias", JSValue.jstr e.1),
                           ("segment", JSValue.jnum (e.2 : ℤ))])))]
         | none => [])
     ++ (match md.imagePlacements with
         | some p => [("imagePlacements", JSValue.jarr (p.map (fun e =>
             JSValue.jobj [("alias", JSValue.jstr e.1),
                           ("page", JSValue.jnum (e.2.1 : ℤ)),
                           ("order", JSValue.jnum (e.2.2 : ℤ))])))]
         | none => []))

/-- A one-image workspace (one image in segment 1) after compression, as
handed to buildPdfPayload by generatePdfDocument. -/
def oneImageWorkspace : List (ℕ × List String) :=
  [(1, ["imgdata"]), (2, []), (3, []), (4, [])]

/-! ## Image size normalization (compressDataUrl, pdf-saver.js lines 8-38)

Only the dimension arithmetic is modelled: the canvas redraw preserves the
computed width/height, and the intrinsic dimensions of a decodable image are
positive. -/

/-- The output pixel dimensions computed by compressDataUrl: if either
intrinsic dimension exceeds its limit, both are scaled by the single factor
`min(maxWidth/width, maxHeight/height)` and truncated with `Math.floor`;
otherwise they are unchanged. -/
def compressDataUrlDims (w h maxW maxH : ℕ) : ℕ × ℕ :=
  if maxW < w ∨ maxH < h then
    let scale : ℚ := min ((maxW : ℚ) / (w : ℚ)) ((maxH : ℚ) / (h : ℚ))
    (⌊(w : ℚ) * scale⌋₊, ⌊(h : ℚ) * scale⌋₊)
  else (w, h)

/-! ## Document Writer placement recording
(renderSegmentImages, ppr-module.js lines 226-385)

The page-break layout determines on which page each embed attempt happens;
the claims under verification concern the per-page counters, so an embed
attempt is modelled as an event carrying the page number the layout chose,
the segment, the alias resolved from the alias map, and whether the
`doc.addImage` call succeeds (`false` models a thrown render error, caught
and recorded as a `renderError` skip). -/

/-- Read a per-page counter (JS `Map.get(page) || 0` pattern). -/
def pageCountGet (m : List (ℕ × ℕ)) (page : ℕ) : ℕ :=
  (List.lookup page m).getD 0

/-- Write a per-page counter (JS `Map.set`). -/
def pageCountSet (m : List (ℕ × ℕ)) (page : ℕ) (v : ℕ) : List (ℕ × ℕ) :=
  if (List.lookup page m).isSome then
    m.map (fun kv => if kv.1 = page then (kv.1, v) else kv)
  else m ++ [(page, v)]

/-- One embed attempt inside the renderSegmentImages image loop. -/
structure WriterEvent where
  page : ℕ
  segment : ℕ
  aliasName : Option String
  embedOk : Bool

/-- The writer-side state threaded through the image loop: the per-page
counter map `pageImageCount`, the `imagePlacements` output array (entries
`(alias, segment, page, order)`), the pages of the images actually embedded
(the rendered output, in embed order), and the count of renderError skips. -/
structure WriterState where
  pageImageCount : List (ℕ × ℕ)
  imagePlacements : List (String × ℕ × ℕ × ℕ)
  embeddedPages : List ℕ
  renderErrorSkips : ℕ

/-- The empty writer state at the start of renderSegmentImages. -/
def initWriterState : WriterState :=
  { pageImageCount := [], imagePlacements := [], embeddedPages := []
    renderErrorSkips := 0 }

/-- recordPlacement from ppr-module.js (lines 260-271): increments the
per-page counter unconditionally, and pushes a placement record only when an
alias is present. -/
def recordPlacement (st : WriterState) (page segment : ℕ)
    (aliasName : Option String) : WriterState :=
  let count := pageCountGet st.pageImageCount page + 1
  let m := pageCountSet st.pageImageCount page count
  match aliasName with
  | some a =>
    { st with pageImageCount := m
              imagePlacements := st.imagePlacements ++ [(a, segment, page, count)] }
  | none => { st with pageImageCount := m }

/-- The embed step of the image loop (ppr-module.js lines 367-379):
recordPlacement runs first, then `doc.addImage`; if the latter throws, the
catch block records a renderError skip — the counter increment and the
placement record are not rolled back. -/
def writerEmbedStep (st : WriterState) (e : WriterEvent) : WriterState :=
  let st1 := recordPlacement st e.page e.segment e.aliasName
  if e.embedOk then { st1 with embeddedPages := st1.embeddedPages ++ [e.page] }
  else { st1 with renderErrorSkips := st1.renderErrorSkips + 1 }

/-- Run the writer image loop over a sequence of embed attempts. -/
def writerRun (events : List WriterEvent) : WriterState :=
  events.foldl writerEmbedStep initWriterState

/-! ## Document Reader extraction counters
(extractImagesFromPdf, pdf-loader.js lines 168-296)

Pages are walked in document order; each raster-image paint operation either
yields a normalized data URL (a successful extraction) or is recorded as
skipped.  An extraction event is modelled as the page number plus whether
the extraction succeeded. -/

/-- The reader-side extraction state: the per-page counter map
`pageImageCounts`, the `imagePlacements` records `(page, order)` of
successful extractions in document order, and the skipped-image count. -/
structure ReaderState where
  pageImageCounts : List (ℕ × ℕ)
  imagePlacements : List (ℕ × ℕ)
  skippedImages : ℕ

/-- The empty reader state. -/
def initReaderState : ReaderState :=
  { pageImageCounts := [], imagePlacements := [], skippedImages := 0 }

/-- One image paint operation during extraction (pdf-loader.js lines
249-291): on success the per-page counter is incremented and a
`(page, order)` record pushed; a failure is recorded as a skip. -/
def readerExtractStep (st : ReaderState) (e : ℕ × Bool) : ReaderState :=
  if e.2 then
    let orderOnPage := pageCountGet st.pageImageCounts e.1 + 1
    { pageImageCounts := pageCountSet st.pageImageCounts e.1 orderOnPage
      imagePlacements := st.imagePlacements ++ [(e.1, orderOnPage)]
      skippedImages := st.skippedImages }
  else { st with skippedImages := st.skippedImages + 1 }

/-- Run the reader extraction loop over a sequence of paint operations. -/
def readerRun (events : List (ℕ × Bool)) : ReaderState :=
  events.foldl readerExtractStep initReaderState

/-- Project a writer placement record to its `(page, order)` component. -/
def writerPlacementPageOrder (p : String × ℕ × ℕ × ℕ) : ℕ × ℕ :=
  (p.2.2.1, p.2.2.2)

/-- A two-attempt writer run on one page whose first `doc.addImage` call
throws (a renderError skip) and whose second succeeds. -/
def writerRenderErrorExample : List WriterEvent :=
  [{ page := 1, segment := 1, aliasName := some (mkAlias 1 1), embedOk := false },
   { page := 1, segment := 1, aliasName := some (mkAlias 1 2), embedOk := true }]

/-! ## Reconstruction (reconstructPprDataFromPdf, pdf-loader.js lines
352-487)

Extracted images are `Option String` (`none` models a non-string array
entry, rejected by the `typeof` guard before pushing).  Extracted placements
are `(page, order, index)` where the index is `Option ℤ`: `none` models a
missing or non-integer `index` field, which `Number.isInteger` filters out
when the buckets are built.  The notice-string construction (pure user-facing
reporting) is omitted; every other returned field is modelled. -/

/-- expectedImageTotal: the sum of the declared per-segment counts. -/
def expectedImageTotal (segments : List (ℕ × ℕ)) : ℕ :=
  (segments.map (fun kv => kv.2)).sum

/-- The fallback reconstruction order synthesized from segment counts in
ascending segment order. -/
def fallbackOrder (segments : List (ℕ × ℕ)) (segmentCount : ℕ) :
    List (String × ℕ) :=
  concatAll (((List.range segmentCount).map (fun i => i + 1)).map (fun seg =>
    (List.range ((List.lookup seg segments).getD 0)).map (fun i =>
      (mkAlias seg (i + 1), seg))))

/-- The reconstruction order: the manifest when its length matches the
declared total and it is non-empty, else the fallback order. -/
def reconstructionOrder (md : PdfMetadata) (segmentCount : ℕ) :
    List (String × ℕ) :=
  match md.imageManifest with
  | some m =>
    if m.length = expectedImageTotal md.segments ∧ m ≠ [] then m
    else fallbackOrder md.segments segmentCount
  | none => fallbackOrder md.segments segmentCount

/-- Whether placement metadata is present (a non-empty imagePlacements
array). -/
def hasPlacementMetadata (md : PdfMetadata) : Bool :=
  match md.imagePlacements with
  | some l => !l.isEmpty
  | none => false

/-- The `{page, order}` target merged into aliasMeta for an alias: the last
matching imagePlacements entry (forEach overwrites earlier ones), present
only when placement metadata exists at all. -/
def aliasTarget (md : PdfMetadata) (a : String) : Option (ℕ × ℕ) :=
  if hasPlacementMetadata md then
    (((md.imagePlacements.getD []).filter (fun e => e.1 == a)).getLast?).map
      (fun e => (e.2.1, e.2.2))
  else none

/-- Append an index to the bucket for a `(page, order)` key (JS Map keyed by
the string `page:order`, modelled as the pair). -/
def bucketAppend (bs : List ((ℕ × ℕ) × List ℤ)) (key : ℕ × ℕ) (i : ℤ) :
    List ((ℕ × ℕ) × List ℤ) :=
  if (List.lookup key bs).isSome then
    bs.map (fun kv => if kv.1 = key then (kv.1, kv.2 ++ [i]) else kv)
  else bs ++ [(key, [i])]

/-- The placement buckets built from the extracted placements (only when
placement metadata is present; entries without an integer index are
skipped). -/
def buildBuckets (md : PdfMetadata)
    (extractedPlacements : List (ℕ × ℕ × Option ℤ)) :
    List ((ℕ × ℕ) × List ℤ) :=
  if hasPlacementMetadata md then
    extractedPlacements.foldl
      (fun bs e =>
        match e.2.2 with
        | some i => bucketAppend bs (e.1, e.2.1) i
        | none => bs)
      []
  else []

/-- The mutable state of the claiming loop: the per-segment reconstructed
image lists, the unclaimed index pool (JS Set in insertion order), the
buckets, the fallback-assignment flag, and — as a ghost field absent from
the source but derived from it — the list of indices claimed so far, in
claim order. -/
structure ReconState where
  images : List (ℕ × List String)
  allIndices : List ℤ
  buckets : List ((ℕ × ℕ) × List ℤ)
  usedFallbackAssignment : Bool
  claimedIdx : List ℤ

/-- claimFromBucket: shift the head of the bucket for `key` (deleting the
bucket when it empties) and remove the claimed index from the pool. -/
def claimFromBucket (st : ReconState) (key : ℕ × ℕ) :
    Option ℤ × ReconState :=
  match List.lookup key st.buckets with
  | some (i :: rest) =>
    let buckets' :=
      if rest.isEmpty then st.buckets.filter (fun kv => !(kv.1 == key))
      else st.buckets.map (fun kv => if kv.1 = key then (kv.1, rest) else kv)
    (some i, { st with buckets := buckets', allIndices := st.allIndices.erase i })
  | _ => (none, st)

/-- claimNextUnused: take the first still-unclaimed index in extraction
order. -/
def claimNextUnused (st : ReconState) : Option ℤ × ReconState :=
  match st.allIndices with
  | [] => (none, st)
  | i :: rest => (some i, { st with allIndices := rest })

/-- Ensure `images[segment]` exists (`if (!reconstructedData.images[segment])
reconstructedData.images[segment] = []`). -/
def imagesEnsure (imgs : List (ℕ × List String)) (seg : ℕ) :
    List (ℕ × List String) :=
  if (List.lookup seg imgs).isSome then imgs else imgs ++ [(seg, [])]

/-- Push an image onto `images[segment]` (the key is ensured beforehand). -/
def imagesPush (imgs : List (ℕ × List String)) (seg : ℕ) (s : String) :
    List (ℕ × List String) :=
  imgs.map (fun kv => if kv.1 = seg then (kv.1, kv.2 ++ [s]) else kv)

/-- One iteration of the claiming loop (pdf-loader.js lines 422-438) for a
reconstruction-order entry `(alias, segment)`: try the placement bucket named
by the alias target (zero page/order values are falsy and disable the
lookup), fall back to the next unclaimed index (setting the fallback flag),
and push the extracted image when the claimed index holds a string. -/
def reconClaimStep (md : PdfMetadata) (extractedImages : List (Option String))
    (st : ReconState) (entry : String × ℕ) : ReconState :=
  let st0 := { st with images := imagesEnsure st.images entry.2 }
  let fromBucket :=
    match aliasTarget md entry.1 with
    | some t =>
      if t.1 ≠ 0 ∧ t.2 ≠ 0 then claimFromBucket st0 t else (none, st0)
    | none => (none, st0)
  let claimed :=
    match fromBucket.1 with
    | some i => (some i, fromBucket.2)
    | none =>
      let c := claimNextUnused fromBucket.2
      match c.1 with
      | some i => (some i, { c.2 with usedFallbackAssignment := true })
      | none => (none, c.2)
  match claimed.1 with
  | some i =>
    let st1 := { claimed.2 with claimedIdx := claimed.2.claimedIdx ++ [i] }
    match (if 0 ≤ i then extractedImages.getD i.toNat none else none) with
    | some s => { st1 with images := imagesPush st1.images entry.2 s }
    | none => st1
  | none => claimed.2

/-- The result record of reconstructPprDataFromPdf (notices omitted;
`claimedIdx` is the ghost claim log). -/
structure ReconResult where
  studentName : String
  images : List (ℕ × List String)
  missingImages : List (ℕ × ℕ × ℕ)
  leftoverImagesCount : ℕ
  usedFallbackAssignment : Bool
  claimedIdx : List ℤ
deriving DecidableEq

/-- reconstructPprDataFromPdf from pdf-loader.js (lines 352-487): build the
reconstruction order, the buckets and the unclaimed pool, run the claiming
loop, ensure every in-range segment key exists, and compute the per-segment
shortfall records and the leftover count. -/
def reconstructPprDataFromPdf (md : PdfMetadata)
    (extractedImages : List (Option String))
    (extractedPlacements : List (ℕ × ℕ × Option ℤ))
    (segmentCount : ℕ) : ReconResult :=
  let order := reconstructionOrder md segmentCount
  let st0 : ReconState :=
    { images := []
      allIndices := (List.range extractedImages.length).map Int.ofNat
      buckets := buildBuckets md extractedPlacements
      usedFallbackAssignment := false
      claimedIdx := [] }
  let stF := order.foldl (reconClaimStep md extractedImages) st0
  let images :=
    (((List.range segmentCount).map (fun i => i + 1)).foldl imagesEnsure
      stF.images)
  let missing :=
    (((List.range segmentCount).map (fun i => i + 1)).filterMap (fun seg =>
      let expected := (List.lookup seg md.segments).getD 0
      let received := ((List.lookup seg images).getD []).length
      if received < expected then some (seg, expected, received) else none))
  { studentName := md.studentName
    images := images
    missingImages := missing
    leftoverImagesCount := stF.allIndices.length
    usedFallbackAssignment := stF.usedFallbackAssignment
    claimedIdx := stF.claimedIdx }

/-- The concrete metadata of the C10 counterexample: two declared images in
segment 1, a manifest for both, and a placement record for the second alias
only. -/
def reconCounterexampleMd : PdfMetadata :=
  { studentName := ""
    segments := [(1, 2)]
    timestamp := ""
    imageManifest := some [("A", 1), ("B", 1)]
    imagePlacements := some [("B", 1, 1)] }

/-- The C10 counterexample run: two extracted string images whose placements
carry indices 0 and 1. -/
def reconCounterexampleRun : ReconResult :=
  reconstructPprDataFromPdf reconCounterexampleMd
    [some "x", some "y"] [(1, 1, some 0), (1, 2, some 1)] 4

/-! ## parsePprJson (ppr-module.js lines 519-628)

The function receives a JSON string; `JSON.parse` is modelled by taking the
parsed `JSValue` directly.  Every `throw` inside the try block is modelled
by `none` (the catch block returns `null`).  JavaScript `Number()` coercion
is modelled by `jsNumberCoe` for the value shapes this program can meet
(numbers, booleans, null and missing values); string-to-number parsing and
array unwrapping are not modelled (no manifest field reachable from this
program carries them). -/

/-- Option-valued traversal (the JS loops that throw on the first invalid
entry and otherwise collect their results in order). -/
def optionMapList {α β : Type} (f : α → Option β) : List α → Option (List β)
  | [] => some []
  | a :: rest =>
    match f a with
    | some b => (optionMapList f rest).map (fun l => b :: l)
    | none => none

/-- JavaScript truthiness of a JSON value (NaN cannot appear in JSON). -/
def jsTruthy : JSValue → Bool
  | .jnull => false
  | .jbool b => b
  | .jnum n => !(n == 0)
  | .jstr s => !(s == "")
  | .jarr _ => true
  | .jobj _ => true

/-- JavaScript `Number()` coercion: `none` models `NaN` (a missing value is
`undefined`, whose coercion is `NaN`). -/
def jsNumberCoe : Option JSValue → Option ℤ
  | none => none
  | some .jnull => some 0
  | some (.jbool b) => some (if b then 1 else 0)
  | some (.jnum n) => some n
  | some (.jstr _) => none
  | some (.jarr _) => none
  | some (.jobj _) => none

/-- Reads a JSON value as an array of strings (`Array.isArray(entry) &&
entry.every(url => typeof url === 'string')`), returning `none` otherwise. -/
def asStringArray : JSValue → Option (List String)
  | .jarr xs =>
    xs.foldr
      (fun x acc =>
        match x, acc with
        | .jstr s, some l => some (s :: l)
        | _, _ => none)
      (some [])
  | _ => none

/-- The record returned by parsePprJson on success. The timestamp field is
passed through verbatim by the source and carries no validated structure, so
it is not modelled. -/
structure PprData where
  studentName : String
  images : Option (List (ℕ × List String))
  segments : Option (List (ℕ × ℤ))
  imageManifest : Option (List (String × ℤ))
  imagePlacements : Option (List (String × ℤ × ℤ))
deriving DecidableEq

/-- coerceManifestEntry from parsePprJson: accepts `{alias, segment}` objects
(and bare strings, whose numeric coercion then fails unless the string is
numeric — not reachable here), requiring a non-empty alias and an integer
segment within 1..SEGMENT_COUNT. -/
def coerceManifestEntry (entry : JSValue) : Option (String × ℤ) :=
  if !(jsTruthy entry) then none
  else
    let aliasName : Option String :=
      match jsField entry "alias" with
      | some (.jstr s) => some s
      | _ =>
        match entry with
        | .jstr s => some s
        | _ => none
    let segmentValue : Option ℤ :=
      match entry, jsField entry "segment" with
      | .jobj _, some (.jnum n) => some n
      | _, _ => jsNumberCoe (some entry)
    match aliasName, segmentValue with
    | some a, some seg =>
      if a.length = 0 then none
      else if 1 ≤ seg ∧ seg ≤ (SEGMENT_COUNT : ℤ) then some (a, seg)
      else none
    | _, _ => none

/-- The imageOrder fallback of parsePprJson: synthesize a manifest from a
list of segment numbers, counting aliases per segment. -/
def manifestFromImageOrder (xs : List JSValue) : List (String × ℤ) :=
  (xs.foldl
    (fun acc entry =>
      match jsNumberCoe (some entry) with
      | some n =>
        if 1 ≤ n ∧ n ≤ (SEGMENT_COUNT : ℤ) then
          let aliasIndex := (List.lookup n acc.2).getD 0
          (acc.1 ++ [(mkAlias n.toNat (aliasIndex + 1), n)],
           if (List.lookup n acc.2).isSome then
             acc.2.map (fun kv => if kv.1 = n then (kv.1, aliasIndex + 1) else kv)
           else acc.2 ++ [(n, aliasIndex + 1)])
        else acc
      | none => acc)
    (([] : List (String × ℤ)), ([] : List (ℤ × ℕ)))).1

/-- One imagePlacements entry check from parsePprJson: a non-empty alias
string plus finite page and order, both at least 1. -/
def coercePlacementEntry (entry : JSValue) : Option (String × ℤ × ℤ) :=
  let aliasName : Option String :=
    match jsField entry "alias" with
    | some (.jstr s) => some s
    | _ => none
  match aliasName, jsNumberCoe (jsField entry "page"),
      jsNumberCoe (jsField entry "order") with
  | some a, some p, some o =>
    if !(a == "") ∧ 1 ≤ p ∧ 1 ≤ o then some (a, p, o) else none
  | _, _, _ => none

/-- parsePprJson from ppr-module.js (lines 519-628), from the parsed value
onward: the structural guards, the per-segment images/segments loops (1..4),
and the manifest/placement coercions.  `none` is the `return null` of the
catch block. -/
def parsePprData (data : JSValue) : Option PprData := do
  match data with
  | .jobj _ => pure ()
  | .jarr _ => pure ()
  | _ => none
  let imagesField := jsField data "images"
  match imagesField with
  | some v =>
    if jsTruthy v then
      match v with
      | .jobj _ => pure ()
      | _ => none
    else pure ()
  | none => pure ()
  let segmentsField := jsField data "segments"
  match segmentsField with
  | some v =>
    if jsTruthy v then
      match v with
      | .jobj _ => pure ()
      | _ => none
    else pure ()
  | none => pure ()
  let imagesTruthy :=
    match imagesField with
    | some v => jsTruthy v
    | none => false
  let segmentsTruthy :=
    match segmentsField with
    | some v => jsTruthy v
    | none => false
  let safeImages : Option (List (ℕ × List String)) ←
    if imagesTruthy then do
      let imagesV := imagesField.getD .jnull
      let lists ← optionMapList (fun i =>
        match jsField imagesV (toString i) with
        | none => some (i, ([] : List String))
        | some e =>
          if jsTruthy e then
            match asStringArray e with
            | some l => some (i, l)
            | none => none
          else some (i, ([] : List String))) segmentNumbers
      pure (some lists)
    else pure none
  let safeSegments : Option (List (ℕ × ℤ)) ←
    if segmentsTruthy then do
      let segmentsV := segmentsField.getD .jnull
      let counts ← optionMapList (fun i =>
        match jsNumberCoe (jsField segmentsV (toString i)) with
        | some count => if count < 0 then none else some (i, count)
        | none => none) segmentNumbers
      pure (some counts)
    else pure none
  let safeImageManifest : Option (List (String × ℤ)) :=
    match jsField data "imageManifest" with
    | some (.jarr xs) => optionMapList coerceManifestEntry xs
    | _ =>
      match jsField data "imageOrder" with
      | some (.jarr xs) =>
        let m := manifestFromImageOrder xs
        if m.isEmpty then none else some m
      | _ => none
  let safeImagePlacements : Option (List (String × ℤ × ℤ)) :=
    match jsField data "imagePlacements" with
    | some (.jarr xs) => optionMapList coercePlacementEntry xs
    | _ => none
  pure
    { studentName :=
        match jsField data "studentName" with
        | some (.jstr s) => s
        | _ => ""
      images := safeImages
      segments := safeSegments
      imageManifest := safeImageManifest
      imagePlacements := safeImagePlacements }

/-! ## Metadata codec (encodeForPdf, pdf-saver.js lines 40-45;
decodeFromPdf, pdf-loader.js lines 150-160)

`TextEncoder`/`TextDecoder` perform UTF-8 byte conversion; `btoa`/`atob`
perform base64 over the byte string.  JS strings are modelled as lists of
Unicode scalar values (`List Char`).  The decoder below is exact on the
valid byte sequences `TextEncoder` produces; on malformed UTF-8 it emits
U+FFFD and resynchronizes one byte at a time (a simplification of
`TextDecoder`'s replacement behaviour, unreachable from the round trip).
`atob` is modelled without its ASCII-whitespace stripping (no manifest
string contains whitespace). -/

/-- UTF-8 encoding of one Unicode scalar value (what `TextEncoder` emits). -/
def utf8EncodeChar (c : Char) : List ℕ :=
  let n := c.toNat
  if n < 128 then [n]
  else if n < 2048 then [192 + n / 64, 128 + n % 64]
  else if n < 65536 then [224 + n / 4096, 128 + n / 64 % 64, 128 + n % 64]
  else [240 + n / 262144, 128 + n / 4096 % 64, 128 + n / 64 % 64, 128 + n % 64]

/-- UTF-8 encoding of a string. -/
def utf8Encode : List Char → List ℕ
  | [] => []
  | c :: cs => utf8EncodeChar c ++ utf8Encode cs

/-- Whether a byte is a UTF-8 continuation byte. -/
def isUtf8Cont (b : ℕ) : Bool := 128 ≤ b ∧ b < 192

/-- One UTF-8 scalar decoded from a lead byte plus the following bytes:
returns the scalar and how many continuation bytes were consumed.  A
malformed sequence yields U+FFFD and consumes only the lead byte
(single-byte resynchronization). -/
def utf8DecodeStep (b : ℕ) (rest : List ℕ) : Char × ℕ :=
  if b < 128 then (Char.ofNat b, 0)
  else if 192 ≤ b ∧ b < 224 then
    match rest with
    | b2 :: _ =>
      if isUtf8Cont b2 then (Char.ofNat ((b - 192) * 64 + (b2 - 128)), 1)
      else (Char.ofNat 65533, 0)
    | [] => (Char.ofNat 65533, 0)
  else if 224 ≤ b ∧ b < 240 then
    match rest with
    | b2 :: b3 :: _ =>
      if isUtf8Cont b2 ∧ isUtf8Cont b3 then
        (Char.ofNat ((b - 224) * 4096 + (b2 - 128) * 64 + (b3 - 128)), 2)
      else (Char.ofNat 65533, 0)
    | _ => (Char.ofNat 65533, 0)
  else if 240 ≤ b ∧ b < 248 then
    match rest with
    | b2 :: b3 :: b4 :: _ =>
      if isUtf8Cont b2 ∧ isUtf8Cont b3 ∧ isUtf8Cont b4 then
        (Char.ofNat ((b - 240) * 262144 + (b2 - 128) * 4096 +
          (b3 - 128) * 64 + (b4 - 128)), 3)
      else (Char.ofNat 65533, 0)
    | _ => (Char.ofNat 65533, 0)
  else (Char.ofNat 65533, 0)

/-- UTF-8 decoding (`TextDecoder` without the fatal flag): exact on valid
sequences, U+FFFD with single-byte resynchronization on malformed input. -/
def utf8Decode : List ℕ → List Char
  | [] => []
  | b :: rest =>
    let s := utf8DecodeStep b rest
    s.1 :: utf8Decode (rest.drop s.2)
  termination_by l => l.length
  decreasing_by
    simp only [List.length_cons, List.length_drop]
    omega

/-- The base64 alphabet used by `btoa`/`atob`. -/
def b64Alphabet : List Char :=
  ("ABCDEFGHIJKLMNOPQRSTUVWXYZabcdefghijklmnopqrstuvwxyz0123456789+/").toList

/-- The alphabet character for a 6-bit group. -/
def b64Char (n : ℕ) : Char := b64Alphabet.getD n 'A'

/-- First index of a character in a list (JS `indexOf`, as an `Option`). -/
def charIndexOf (c : Char) : List Char → Option ℕ
  | [] => none
  | a :: rest =>
    if a == c then some 0 else (charIndexOf c rest).map (fun i => i + 1)

/-- The 6-bit group of an alphabet character, `none` outside the alphabet. -/
def b64Index (c : Char) : Option ℕ := charIndexOf c b64Alphabet

/-- `btoa` over a byte list: 3-byte groups to 4 characters, with `=`
padding. -/
def b64Encode : List ℕ → List Char
  | [] => []
  | [b1] => [b64Char (b1 / 4), b64Char (b1 % 4 * 16), '=', '=']
  | [b1, b2] =>
    [b64Char (b1 / 4), b64Char (b1 % 4 * 16 + b2 / 16), b64Char (b2 % 16 * 4), '=']
  | b1 :: b2 :: b3 :: rest =>
    b64Char (b1 / 4) :: b64Char (b1 % 4 * 16 + b2 / 16) ::
      b64Char (b2 % 16 * 4 + b3 / 64) :: b64Char (b3 % 64) :: b64Encode rest

/-- `atob` over a string: 4-character groups to bytes, `=` padding allowed
only at the very end, `none` (a thrown InvalidCharacterError) on anything
else. -/
def b64Decode : List Char → Option (List ℕ)
  | [] => some []
  | c1 :: c2 :: c3 :: c4 :: rest => do
    let g1 ← b64Index c1
    let g2 ← b64Index c2
    if rest.isEmpty ∧ c4 = '=' then
      if c3 = '=' then
        pure [g1 * 4 + g2 / 16]
      else do
        let g3 ← b64Index c3
        pure [g1 * 4 + g2 / 16, g2 % 16 * 16 + g3 / 4]
    else do
      let g3 ← b64Index c3
      let g4 ← b64Index c4
      let restBytes ← b64Decode rest
      pure ((g1 * 4 + g2 / 16) :: (g2 % 16 * 16 + g3 / 4) ::
        (g3 % 4 * 64 + g4) :: restBytes)
  | _ => none

/-- encodeForPdf from pdf-saver.js: UTF-8 encode then `btoa`. -/
def encodeForPdf (s : List Char) : List Char :=
  b64Encode (utf8Encode s)

/-- decodeFromPdf from pdf-loader.js: `atob` then `TextDecoder`, with the
catch block returning `null` (`none`) when `atob` throws. -/
def decodeFromPdf (s : List Char) : Option (List Char) :=
  (b64Decode s).map utf8Decode

/-- A character `atob` rejects outright: outside the alphabet, not padding,
and not the ASCII whitespace that forgiving base64 strips. -/
def isB64Reject (c : Char) : Bool :=
  !(b64Alphabet.contains c) && !(c == '=') &&
    !([' ', '\t', '\n', '\x0d', '\x0c'].contains c)

/-! # Theorems -/

/-! ## Helper lemmas on the workspace store -/

theorem alignedState_applyPprOp (op : PprOp) (st : PprState)
    (h : alignedState st) : alignedState (applyPprOp op st) := by
  cases op with
  | add dataUrl segmentNum =>
    intro seg
    obtain ⟨h1, h2, h3⟩ := h seg
    by_cases hs : seg = segmentNum
    · subst hs
      simp [applyPprOp, addImage, Function.update_same, h1, h2, h3]
    · simp [applyPprOp, addImage, Function.update_noteq hs, h1, h2, h3]
  | remove index segmentNum =>
    intro seg
    obtain ⟨h1, h2, h3⟩ := h seg
    by_cases hs : seg = segmentNum
    · subst hs
      simp [applyPprOp, removeImage, Function.update_same,
        List.length_eraseIdx, h1, h2, h3]
    · simp [applyPprOp, removeImage, Function.update_noteq hs, h1, h2, h3]
  | load images =>
    simp only [applyPprOp, applyLoadedData]
    induction images generalizing st with
    | nil => simpa using h
    | cons kv rest ih =>
      simp only [List.foldl_cons]
      apply ih
      match hkv : kv.1 with
      | none => simpa [hkv] using h
      | some n =>
        intro seg
        obtain ⟨h1, h2, h3⟩ := h seg
        by_cases hs : seg = n
        · subst hs
          simp [hkv, Function.update_same]
        · simp [hkv, Function.update_noteq hs, h1, h2, h3]

theorem alignedState_init : alignedState initPprState := by
  intro seg
  simp [initPprState]

/-- C6: after every sequence of addImage, removeImage and applyLoadedData
operations starting from the initial store, the four per-image metadata
arrays of every segment have equal length (and removeImage erases the same
index from each, so index alignment is preserved throughout). -/
theorem c6_metadata_arrays_aligned (ops : List PprOp) :
    alignedState (runPprOps ops initPprState) := by
  have main : ∀ (l : List PprOp) (st : PprState), alignedState st →
      alignedState (runPprOps l st) := by
    intro l
    induction l with
    | nil => intro st h; simpa [runPprOps] using h
    | cons op rest ih =>
      intro st h
      simpa [runPprOps] using ih _ (alignedState_applyPprOp op st h)
  exact main ops initPprState alignedState_init

/-- C4 counterexample: with segment 1 already holding the maximum 3 images,
addImage is not a no-op — it appends a fourth image (the claim asserts the
call leaves the segment's image list unchanged). -/
theorem c4_counterexample :
    (addImage "d" 1 stThreeImages).segmentImages 1 ≠
        stThreeImages.segmentImages 1 ∧
    (stThreeImages.segmentImages 1).length = 3 ∧
    ((addImage "d" 1 stThreeImages).segmentImages 1).length = 4 := by
  refine ⟨?_, ?_, ?_⟩ <;> decide

/-- C4 (amended): addImage itself never checks the 3-image cap — it always
appends the image and marks it raw (compression flag false); the silent
no-op on a full segment is enforced by its caller handleFiles, which adds
`valid.slice(0, 3 - count)` files and therefore adds nothing when the
segment already holds 3 images. -/
theorem c4_addImage_appends_and_callers_enforce_cap :
    (∀ (st : PprState) (url : String) (seg : ℕ),
      (addImage url seg st).segmentImages seg = st.segmentImages seg ++ [url] ∧
      (addImage url seg st).imageCompressionState seg =
        st.imageCompressionState seg ++ [false]) ∧
    (∀ (st : PprState) (seg : ℕ) (files : List JsFile),
      (st.segmentImages seg).length = 3 → handleFiles files seg st = st) := by
  constructor
  · intro st url seg
    simp [addImage, Function.update_same]
  · intro st seg files h
    simp [handleFiles, h, jsSliceToEnd]

/-- C4 witness: the amended theorem applied at a concrete full segment and a
concrete fresh store. -/
theorem c4_witness :
    (addImage "d" 1 initPprState).segmentImages 1 = ["d"] ∧
    handleFiles [{ name := "x.png", data := "d" }] 1 stThreeImages =
      stThreeImages := by
  constructor
  · have h := (c4_addImage_appends_and_callers_enforce_cap.1 initPprState "d" 1).1
    simpa [initPprState] using h
  · exact c4_addImage_appends_and_callers_enforce_cap.2 stThreeImages 1 _ (by decide)

/-- C1 (code bug): the payload object built by buildPdfPayload — the exact
object that generatePdfDocument passes, unmodified, to embedPayloadMetadata
after renderSegmentImages returns — carries only the keys studentName,
segments, timestamp and imageManifest.  The imagePlacements array filled
during rendering is never attached to it, so the embedded manifest omits the
placements, although the writer did record one (third conjunct). -/
theorem c1_embedded_manifest_lacks_imagePlacements :
    jsObjKeys (payloadJson (buildPdfPayload oneImageWorkspace "A" "t").1) =
      ["studentName", "segments", "timestamp", "imageManifest"] ∧
    (jsField (payloadJson (buildPdfPayload oneImageWorkspace "A" "t").1)
        "imagePlacements").isNone = true ∧
    (writerRun [⟨1, 1, some (mkAlias 1 1), true⟩]).imagePlacements =
      [(mkAlias 1 1, 1, 1, 1)] := by
  refine ⟨?_, ?_, ?_⟩ <;> decide

/-- C8: a trusted (pre-compressed) image is passed through verbatim by the
compression loop — for any position whose compression flag is true the loop
emits the stored data URL unchanged and never consults the compression
function (the equation holds uniformly in `f`); and applyLoadedData marks
every loaded image trusted, so a reloaded save is passed through on the next
export. -/
theorem c8_precompressed_passthrough :
    (∀ (f : String → Except Unit String) (flags : List Bool) (idx : ℕ)
        (url : String) (rest : List String),
      flags.getD idx false = true →
      compressSegmentAux f flags idx (url :: rest) =
        (url :: (compressSegmentAux f flags (idx + 1) rest).1,
         (compressSegmentAux f flags (idx + 1) rest).2)) ∧
    (∀ (n : ℕ) (urls : List String) (st : PprState),
      (applyLoadedData [(some n, urls)] st).imageCompressionState n =
        List.replicate urls.length true) := by
  constructor
  · intro f flags idx url rest h
    have h' : flags[idx]?.getD false = true := by simpa [List.getD] using h
    simp [compressSegmentAux, List.getD, h']
  · intro n urls st
    simp [applyLoadedData, Function.update_same]

/-- C8 witness: the pass-through equation applied with a compression
function that always fails — a trusted image still flows through unchanged,
so the function was not invoked on it. -/
theorem c8_witness :
    compressSegmentAux (fun _ => Except.error ()) [true] 0 ["keep"] =
      (["keep"], []) := by
  have h := c8_precompressed_passthrough.1 (fun _ => Except.error ())
    [true] 0 "keep" [] (by decide)
  simpa [compressSegmentAux] using h

/-- C7: compressDataUrl leaves the pixel dimensions unchanged when both fit
within the 1600x1600 limits, and otherwise scales both by the single factor
`min(1600/width, 1600/height)` (floored), which keeps both results at most
1600 and preserves the aspect ratio up to that rounding. -/
theorem c7_compress_dims (w h : ℕ) (hw : 0 < w) (hh : 0 < h) :
    (w ≤ 1600 ∧ h ≤ 1600 → compressDataUrlDims w h 1600 1600 = (w, h)) ∧
    (1600 < w ∨ 1600 < h →
      compressDataUrlDims w h 1600 1600 =
        (⌊(w : ℚ) * min (1600 / (w : ℚ)) (1600 / (h : ℚ))⌋₊,
         ⌊(h : ℚ) * min (1600 / (w : ℚ)) (1600 / (h : ℚ))⌋₊) ∧
      (compressDataUrlDims w h 1600 1600).1 ≤ 1600 ∧
      (compressDataUrlDims w h 1600 1600).2 ≤ 1600) := by
  have hwq : (0 : ℚ) < (w : ℚ) := by exact_mod_cast hw
  have hhq : (0 : ℚ) < (h : ℚ) := by exact_mod_cast hh
  constructor
  · rintro ⟨h1, h2⟩
    have : ¬(1600 < w ∨ 1600 < h) := by omega
    simp [compressDataUrlDims, this]
  · intro hbig
    have hcond : 1600 < w ∨ 1600 < h := hbig
    have heq : compressDataUrlDims w h 1600 1600 =
        (⌊(w : ℚ) * min (1600 / (w : ℚ)) (1600 / (h : ℚ))⌋₊,
         ⌊(h : ℚ) * min (1600 / (w : ℚ)) (1600 / (h : ℚ))⌋₊) := by
      simp [compressDataUrlDims, hcond]
    have hb1 : (w : ℚ) * min (1600 / (w : ℚ)) (1600 / (h : ℚ)) ≤ 1600 := by
      calc (w : ℚ) * min (1600 / (w : ℚ)) (1600 / (h : ℚ))
          ≤ (w : ℚ) * (1600 / (w : ℚ)) :=
            mul_le_mul_of_nonneg_left (min_le_left _ _) (le_of_lt hwq)
        _ = 1600 := by field_simp
    have hb2 : (h : ℚ) * min (1600 / (w : ℚ)) (1600 / (h : ℚ)) ≤ 1600 := by
      calc (h : ℚ) * min (1600 / (w : ℚ)) (1600 / (h : ℚ))
          ≤ (h : ℚ) * (1600 / (h : ℚ)) :=
            mul_le_mul_of_nonneg_left (min_le_right _ _) (le_of_lt hhq)
        _ = 1600 := by field_simp
    have hf1 : ⌊(w : ℚ) * min (1600 / (w : ℚ)) (1600 / (h : ℚ))⌋₊ ≤ 1600 := by
      have h1600 : ((1600 : ℕ) : ℚ) = (1600 : ℚ) := by norm_num
      calc ⌊(w : ℚ) * min (1600 / (w : ℚ)) (1600 / (h : ℚ))⌋₊
          ≤ ⌊((1600 : ℕ) : ℚ)⌋₊ := Nat.floor_le_floor (by rw [h1600]; exact hb1)
        _ = 1600 := Nat.floor_natCast 1600
    have hf2 : ⌊(h : ℚ) * min (1600 / (w : ℚ)) (1600 / (h : ℚ))⌋₊ ≤ 1600 := by
      have h1600 : ((1600 : ℕ) : ℚ) = (1600 : ℚ) := by norm_num
      calc ⌊(h : ℚ) * min (1600 / (w : ℚ)) (1600 / (h : ℚ))⌋₊
          ≤ ⌊((1600 : ℕ) : ℚ)⌋₊ := Nat.floor_le_floor (by rw [h1600]; exact hb2)
        _ = 1600 := Nat.floor_natCast 1600
    refine ⟨heq, ?_, ?_⟩ <;> rw [heq]
    · exact hf1
    · exact hf2

/-- C7 witness: the theorem applied at the 3200x2400 oversized input of the
spec; both output dimensions are within 1600, and evaluation confirms the
exact halved size 1600x1200. -/
theorem c7_witness :
    (compressDataUrlDims 3200 2400 1600 1600).1 ≤ 1600 ∧
    (compressDataUrlDims 3200 2400 1600 1600).2 ≤ 1600 ∧
    compressDataUrlDims 3200 2400 1600 1600 = (1600, 1200) := by
  have h := (c7_compress_dims 3200 2400 (by norm_num) (by norm_num)).2
    (Or.inl (by norm_num))
  refine ⟨h.2.1, h.2.2, ?_⟩
  rw [h.1]
  norm_num

/-! ## Writer/Reader placement symmetry -/

/-- C3 counterexample: the writer's per-page counter is incremented by
recordPlacement before `doc.addImage` runs, so an embed attempt whose
addImage call throws (a renderError skip) still consumes a counter value and
still leaves a placement record.  On one page with a failed first embed and
a successful second one, the writer records orders 1 and 2 while only one
image reaches the rendered output, which the reader numbers 1 — the recorded
placements do not equal the reader's extraction records for the same
rendered output, and the writer counter did not increment exactly once per
image actually embedded. -/
theorem c3_counterexample :
    (writerRun writerRenderErrorExample).imagePlacements.map
        writerPlacementPageOrder ≠
      (readerRun ((writerRun writerRenderErrorExample).embeddedPages.map
        (fun p => (p, true)))).imagePlacements ∧
    (writerRun writerRenderErrorExample).embeddedPages.length = 1 ∧
    (writerRun writerRenderErrorExample).imagePlacements.length = 2 := by
  refine ⟨?_, ?_, ?_⟩ <;> decide

theorem writer_reader_counter_aux (events : List WriterEvent)
    (w : WriterState) (r : ReaderState)
    (hok : ∀ e ∈ events, e.embedOk = true)
    (halias : ∀ e ∈ events, e.aliasName.isSome)
    (hmap : w.pageImageCount = r.pageImageCounts)
    (hpl : w.imagePlacements.map writerPlacementPageOrder = r.imagePlacements) :
    (events.foldl writerEmbedStep w).imagePlacements.map
        writerPlacementPageOrder =
      (events.foldl (fun s e => readerExtractStep s (e.page, true))
        r).imagePlacements := by
  induction events generalizing w r with
  | nil => simpa using hpl
  | cons e rest ih =>
    have hokE : e.embedOk = true := hok e (by simp)
    have haliasE : e.aliasName.isSome := halias e (by simp)
    obtain ⟨a, ha⟩ := Option.isSome_iff_exists.mp haliasE
    simp only [List.foldl_cons]
    apply ih
    · intro x hx; exact hok x (by simp [hx])
    · intro x hx; exact halias x (by simp [hx])
    · simp [writerEmbedStep, recordPlacement, readerExtractStep, ha, hokE, hmap]
    · simp [writerEmbedStep, recordPlacement, readerExtractStep, ha, hokE,
        hmap, hpl, writerPlacementPageOrder]

/-- C3 (amended): both counters start at 1 on each page, the reader
increments once per successfully extracted image, and the writer increments
once per image that reaches the embed step — before the addImage call, so a
throwing embed still consumes a counter value.  When every embed call
succeeds (no renderError skips, every image carrying its alias) and the
reader successfully extracts every embedded image in document order, the
writer's recorded page/order placements equal the reader's extraction
records. -/
theorem c3_placement_symmetry (events : List WriterEvent)
    (hok : ∀ e ∈ events, e.embedOk = true)
    (halias : ∀ e ∈ events, e.aliasName.isSome) :
    (writerRun events).imagePlacements.map writerPlacementPageOrder =
      (readerRun (events.map (fun e => (e.page, true)))).imagePlacements := by
  have h := writer_reader_counter_aux events initWriterState initReaderState
    hok halias (by simp [initWriterState, initReaderState])
    (by simp [initWriterState, initReaderState])
  rw [writerRun, readerRun, List.foldl_map]
  exact h

/-- C3 witness: the amended symmetry applied to a concrete 2-image, 2-page
run with all embeds succeeding. -/
theorem c3_witness :
    (writerRun [⟨1, 1, some "a", true⟩, ⟨2, 2, some "b", true⟩]).imagePlacements.map
        writerPlacementPageOrder =
      (readerRun [(1, true), (2, true)]).imagePlacements := by
  have h := c3_placement_symmetry
    [⟨1, 1, some "a", true⟩, ⟨2, 2, some "b", true⟩]
    (by intro e he; fin_cases he <;> rfl)
    (by intro e he; fin_cases he <;> rfl)
  simpa using h

/-! ## parsePprJson validation -/

theorem asStringArray_map_jstr (xs : List String) :
    asStringArray (.jarr (xs.map JSValue.jstr)) = some xs := by
  induction xs with
  | nil => rfl
  | cons x rest ih =>
    simp only [asStringArray, List.map_cons, List.foldr_cons]
    simp only [asStringArray] at ih
    rw [ih]

/-- C5 counterexample: a parsed save object whose segments field is a plain
object with an entry for segment 1 only is rejected (null) by parsePprJson —
the missing entries for segments 2..4 coerce to NaN and fail the
Number.isFinite check, instead of being coerced to zero as the claim
states. -/
theorem c5_counterexample :
    parsePprData (.jobj [("segments", .jobj [("1", .jnum 2)])]) = none := by
  decide

/-- C5 (amended): parsePprJson coerces each missing per-segment entry of the
images object to an empty list and rejects a segment image list containing a
non-string entry; but when a segments object is present, a missing
per-segment count entry is not coerced to zero — its Number() coercion is
NaN, so the whole document is rejected (null). -/
theorem c5_validation_behaviour :
    (∀ xs : List String,
      parsePprData (.jobj [("images",
          .jobj [("2", .jarr (xs.map JSValue.jstr))])]) =
        some { studentName := ""
               images := some [(1, []), (2, xs), (3, []), (4, [])]
               segments := none
               imageManifest := none
               imagePlacements := none }) ∧
    (∀ a b c : ℤ, 0 ≤ a → 0 ≤ b → 0 ≤ c →
      parsePprData (.jobj [("segments",
          .jobj [("1", .jnum a), ("2", .jnum b), ("3", .jnum c)])]) = none) ∧
    parsePprData (.jobj [("images",
        .jobj [("1", .jarr [.jstr "a", .jnum 5])])]) = none := by
  refine ⟨?_, ?_, by decide⟩
  · intro xs
    simp [parsePprData, jsField, jsTruthy, segmentNumbers, optionMapList,
      asStringArray_map_jstr xs,
      show toString (1 : ℕ) = "1" from rfl, show toString (2 : ℕ) = "2" from rfl,
      show toString (3 : ℕ) = "3" from rfl, show toString (4 : ℕ) = "4" from rfl]
  · intro a b c ha hb hc
    simp [parsePprData, jsField, jsTruthy, segmentNumbers, optionMapList,
      jsNumberCoe, not_lt.mpr ha, not_lt.mpr hb, not_lt.mpr hc,
      show toString (1 : ℕ) = "1" from rfl, show toString (2 : ℕ) = "2" from rfl,
      show toString (3 : ℕ) = "3" from rfl, show toString (4 : ℕ) = "4" from rfl]

/-- C5 witness: the amended theorem applied at a one-entry images object and
a three-entry segments object with concrete counts. -/
theorem c5_witness :
    parsePprData (.jobj [("images", .jobj [("2", .jarr [.jstr "u"])])]) =
      some { studentName := ""
             images := some [(1, []), (2, ["u"]), (3, []), (4, [])]
             segments := none
             imageManifest := none
             imagePlacements := none } ∧
    parsePprData (.jobj [("segments",
        .jobj [("1", .jnum 0), ("2", .jnum 0), ("3", .jnum 0)])]) = none := by
  constructor
  · have h := c5_validation_behaviour.1 ["u"]
    simpa using h
  · exact c5_validation_behaviour.2.1 0 0 0 (le_refl 0) (le_refl 0) (le_refl 0)

/-! ## Codec round trip -/

theorem b64Index_b64Char : ∀ n < 64, b64Index (b64Char n) = some n := by
  decide

theorem b64Char_ne_pad : ∀ n < 64, b64Char n ≠ '=' := by
  decide

theorem charIndexOf_eq_none (l : List Char) (c : Char) (h : c ∉ l) :
    charIndexOf c l = none := by
  induction l with
  | nil => rfl
  | cons a rest ih =>
    have hac : (a == c) = false := by
      simp only [beq_eq_false_iff_ne, ne_eq]
      rintro rfl
      exact h (List.mem_cons_self a rest)
    have hrec := ih (fun hc => h (List.mem_cons_of_mem a hc))
    simp [charIndexOf, hac, hrec]

theorem b64Index_eq_none_of_reject (c : Char) (h : isB64Reject c = true) :
    b64Index c = none ∧ c ≠ '=' := by
  simp only [isB64Reject, Bool.and_eq_true, Bool.not_eq_true'] at h
  obtain ⟨⟨hmem, hpad⟩, _⟩ := h
  refine ⟨charIndexOf_eq_none _ _ ?_, ?_⟩
  · intro hc
    simp only [List.contains_eq_any_beq] at hmem
    simp [List.any_eq_true] at hmem
    exact hmem c hc rfl
  · intro hc
    simp [hc] at hpad

theorem b64_roundtrip_aux (n : ℕ) :
    ∀ bs : List ℕ, bs.length ≤ n → (∀ b ∈ bs, b < 256) →
      b64Decode (b64Encode bs) = some bs := by
  induction n with
  | zero =>
    intro bs hlen _
    have : bs = [] := List.eq_nil_of_length_eq_zero (Nat.le_zero.mp hlen)
    subst this
    rfl
  | succ n ih =>
    intro bs hlen hb
    rcases bs with _ | ⟨b1, _ | ⟨b2, _ | ⟨b3, rest⟩⟩⟩
    · rfl
    · have h1 : b1 < 256 := hb b1 (by simp)
      have hg1 : b1 / 4 < 64 := by omega
      have hg2 : b1 % 4 * 16 < 64 := by omega
      simp [b64Encode, b64Decode, b64Index_b64Char _ hg1, b64Index_b64Char _ hg2]
      omega
    · have h1 : b1 < 256 := hb b1 (by simp)
      have h2 : b2 < 256 := hb b2 (by simp)
      have hg1 : b1 / 4 < 64 := by omega
      have hg2 : b1 % 4 * 16 + b2 / 16 < 64 := by omega
      have hg3 : b2 % 16 * 4 < 64 := by omega
      have hne : b64Char (b2 % 16 * 4) ≠ '=' := b64Char_ne_pad _ hg3
      simp [b64Encode, b64Decode, b64Index_b64Char _ hg1,
        b64Index_b64Char _ hg2, b64Index_b64Char _ hg3, hne]
      omega
    · have h1 : b1 < 256 := hb b1 (by simp)
      have h2 : b2 < 256 := hb b2 (by simp)
      have h3 : b3 < 256 := hb b3 (by simp)
      have hg1 : b1 / 4 < 64 := by omega
      have hg2 : b1 % 4 * 16 + b2 / 16 < 64 := by omega
      have hg3 : b2 % 16 * 4 + b3 / 64 < 64 := by omega
      have hg4 : b3 % 64 < 64 := by omega
      have hne : b64Char (b3 % 64) ≠ '=' := b64Char_ne_pad _ hg4
      have hrest : b64Decode (b64Encode rest) = some rest := by
        apply ih rest
        · simp only [List.length_cons] at hlen
          omega
        · intro b hbm
          exact hb b (by simp [hbm])
      simp [b64Encode, b64Decode, b64Index_b64Char _ hg1,
        b64Index_b64Char _ hg2, b64Index_b64Char _ hg3,
        b64Index_b64Char _ hg4, hne, hrest]
      omega

theorem char_toNat_lt (c : Char) : c.toNat < 1114112 := by
  have h := c.valid
  simp only [Char.toNat]
  rcases h with h | ⟨h1, h2⟩
  · omega
  · omega

theorem utf8EncodeChar_lt_256 (c : Char) : ∀ b ∈ utf8EncodeChar c, b < 256 := by
  have hlt := char_toNat_lt c
  intro b hbm
  simp only [utf8EncodeChar] at hbm
  split_ifs at hbm <;> simp at hbm <;> omega

theorem utf8Encode_lt_256 (s : List Char) : ∀ b ∈ utf8Encode s, b < 256 := by
  induction s with
  | nil => simp [utf8Encode]
  | cons c rest ih =>
    intro b hbm
    simp only [utf8Encode, List.mem_append] at hbm
    rcases hbm with hbm | hbm
    · exact utf8EncodeChar_lt_256 c b hbm
    · exact ih b hbm

theorem utf8DecodeChar_roundtrip (c : Char) (rest : List ℕ) :
    utf8Decode (utf8EncodeChar c ++ rest) = c :: utf8Decode rest := by
  have hlt := char_toNat_lt c
  by_cases h1 : c.toNat < 128
  · simp [utf8EncodeChar, h1, utf8Decode, utf8DecodeStep, Char.ofNat_toNat]
  · by_cases h2 : c.toNat < 2048
    · have e1 : ¬(192 + c.toNat / 64 < 128) := by omega
      have e2 : 192 ≤ 192 + c.toNat / 64 ∧ 192 + c.toNat / 64 < 224 := by omega
      have e3 : isUtf8Cont (128 + c.toNat % 64) = true := by
        simp only [isUtf8Cont, decide_eq_true_eq]
        omega
      have e4 : (192 + c.toNat / 64 - 192) * 64 + (128 + c.toNat % 64 - 128) =
          c.toNat := by omega
      simp [utf8EncodeChar, h1, h2, utf8Decode, utf8DecodeStep, e1, e2, e3, e4]
      have harg : c.toNat / 64 * 64 + c.toNat % 64 = c.toNat := by omega
      rw [harg, Char.ofNat_toNat]
    · by_cases h3 : c.toNat < 65536
      · have e1 : ¬(224 + c.toNat / 4096 < 128) := by omega
        have e2 : ¬(192 ≤ 224 + c.toNat / 4096 ∧ 224 + c.toNat / 4096 < 224) := by
          omega
        have e2' : 224 ≤ 224 + c.toNat / 4096 ∧ 224 + c.toNat / 4096 < 240 := by
          omega
        have e3 : isUtf8Cont (128 + c.toNat / 64 % 64) = true := by
          simp only [isUtf8Cont, decide_eq_true_eq]
          omega
        have e4 : isUtf8Cont (128 + c.toNat % 64) = true := by
          simp only [isUtf8Cont, decide_eq_true_eq]
          omega
        have e5 : (224 + c.toNat / 4096 - 224) * 4096 +
            (128 + c.toNat / 64 % 64 - 128) * 64 + (128 + c.toNat % 64 - 128) =
            c.toNat := by omega
        simp [utf8EncodeChar, h1, h2, h3, utf8Decode, utf8DecodeStep, e1, e2,
          e2', e3, e4, e5]
        have harg : c.toNat / 4096 * 4096 + c.toNat / 64 % 64 * 64 +
            c.toNat % 64 = c.toNat := by omega
        rw [harg, Char.ofNat_toNat]
      · have e1 : ¬(240 + c.toNat / 262144 < 128) := by omega
        have e2 : ¬(192 ≤ 240 + c.toNat / 262144 ∧
            240 + c.toNat / 262144 < 224) := by omega
        have e3 : ¬(224 ≤ 240 + c.toNat / 262144 ∧
            240 + c.toNat / 262144 < 240) := by omega
        have e4 : 240 ≤ 240 + c.toNat / 262144 ∧
            240 + c.toNat / 262144 < 248 := by omega
        have e5 : isUtf8Cont (128 + c.toNat / 4096 % 64) = true := by
          simp only [isUtf8Cont, decide_eq_true_eq]
          omega
        have e6 : isUtf8Cont (128 + c.toNat / 64 % 64) = true := by
          simp only [isUtf8Cont, decide_eq_true_eq]
          omega
        have e7 : isUtf8Cont (128 + c.toNat % 64) = true := by
          simp only [isUtf8Cont, decide_eq_true_eq]
          omega
        have e8 : (240 + c.toNat / 262144 - 240) * 262144 +
            (128 + c.toNat / 4096 % 64 - 128) * 4096 +
            (128 + c.toNat / 64 % 64 - 128) * 64 + (128 + c.toNat % 64 - 128) =
            c.toNat := by omega
        simp [utf8EncodeChar, h1, h2, h3, utf8Decode, utf8DecodeStep, e1, e2,
          e3, e4, e5, e6, e7, e8]
        have harg : c.toNat / 262144 * 262144 + c.toNat / 4096 % 64 * 4096 +
            c.toNat / 64 % 64 * 64 + c.toNat % 64 = c.toNat := by omega
        rw [harg, Char.ofNat_toNat]

theorem utf8_roundtrip (s : List Char) : utf8Decode (utf8Encode s) = s := by
  induction s with
  | nil => simp [utf8Encode, utf8Decode]
  | cons c rest ih =>
    simp only [utf8Encode]
    rw [utf8DecodeChar_roundtrip, ih]

theorem b64Decode_none_of_reject (n : ℕ) :
    ∀ s : List Char, s.length ≤ n → (∃ c ∈ s, isB64Reject c = true) →
      b64Decode s = none := by
  induction n with
  | zero =>
    intro s hlen hbad
    have : s = [] := List.eq_nil_of_length_eq_zero (Nat.le_zero.mp hlen)
    subst this
    obtain ⟨c, hc, _⟩ := hbad
    simp at hc
  | succ n ih =>
    intro s hlen hbad
    rcases s with _ | ⟨c1, _ | ⟨c2, _ | ⟨c3, _ | ⟨c4, rest⟩⟩⟩⟩
    · obtain ⟨c, hc, _⟩ := hbad
      simp at hc
    · rfl
    · rfl
    · rfl
    · obtain ⟨c, hc, hrej⟩ := hbad
      simp only [List.mem_cons] at hc
      obtain ⟨hidx, hpad⟩ := b64Index_eq_none_of_reject c hrej
      rcases hc with rfl | rfl | rfl | rfl | hmem
      · simp [b64Decode, hidx]
      · cases hg1 : b64Index c1 <;> simp [b64Decode, hg1, hidx]
      · cases hg1 : b64Index c1 <;> cases hg2 : b64Index c2 <;>
          simp [b64Decode, hg1, hg2, hidx, hpad]
      · cases hg1 : b64Index c1 <;> cases hg2 : b64Index c2 <;>
          cases hg3 : b64Index c3 <;> simp [b64Decode, hg1, hg2, hg3, hidx, hpad]
      · have hrest : b64Decode rest = none := by
          apply ih rest
          · simp only [List.length_cons] at hlen
            omega
          · exact ⟨c, hmem, hrej⟩
        have hne : rest.isEmpty = false := by
          cases rest with
          | nil => simp at hmem
          | cons a l => rfl
        cases hg1 : b64Index c1 <;> cases hg2 : b64Index c2 <;>
          cases hg3 : b64Index c3 <;> cases hg4 : b64Index c4 <;>
          simp [b64Decode, hg1, hg2, hg3, hg4, hrest, hne]

/-- C9: the metadata codec round-trips exactly — decoding an encoded string
(UTF-8 bytes through the base64 alphabet and back) recovers it verbatim for
every string; and on any input containing a character that atob rejects
(outside the alphabet, not padding, not strippable whitespace), decodeFromPdf
returns null instead of propagating an exception. -/
theorem c9_codec_roundtrip :
    (∀ s : List Char, decodeFromPdf (encodeForPdf s) = some s) ∧
    (∀ s : List Char, (∃ c ∈ s, isB64Reject c = true) →
      decodeFromPdf s = none) := by
  constructor
  · intro s
    have hb := utf8Encode_lt_256 s
    have h64 := b64_roundtrip_aux (utf8Encode s).length (utf8Encode s)
      (le_refl _) hb
    simp [decodeFromPdf, encodeForPdf, h64, utf8_roundtrip]
  · intro s hbad
    have h := b64Decode_none_of_reject s.length s (le_refl _) hbad
    simp [decodeFromPdf, h]

/-- C9 witness: the round trip evaluated at a concrete string and the
rejection case at a concrete non-alphabet input. -/
theorem c9_witness :
    decodeFromPdf (encodeForPdf ['h', 'i']) = some ['h', 'i'] ∧
    decodeFromPdf ['~', '~', '~', '~'] = none :=
  ⟨c9_codec_roundtrip.1 ['h', 'i'],
   c9_codec_roundtrip.2 ['~', '~', '~', '~'] ⟨'~', by decide, by decide⟩⟩

/-! ## Reconstruction lemmas -/

theorem lookup_append_pairs {β : Type} (l1 l2 : List (ℕ × β)) (s : ℕ) :
    List.lookup s (l1 ++ l2) = (List.lookup s l1).or (List.lookup s l2) := by
  induction l1 with
  | nil => simp [List.lookup]
  | cons kv t ih =>
    obtain ⟨k, v⟩ := kv
    by_cases h : s = k
    · have hb : (s == k) = true := by simp [h]
      simp [List.lookup, hb]
    · have hb : (s == k) = false := by simp [h]
      simp [List.lookup, hb, ih]

theorem lookup_isSome_iff_mem {β : Type} (l : List (ℕ × β)) (s : ℕ) :
    (List.lookup s l).isSome = true ↔ s ∈ l.map Prod.fst := by
  induction l with
  | nil => simp [List.lookup]
  | cons kv t ih =>
    obtain ⟨k, v⟩ := kv
    by_cases h : s = k
    · have hb : (s == k) = true := by simp [h]
      simp [List.lookup, hb, h]
    · have hb : (s == k) = false := by simp [h]
      simp [List.lookup, hb, h, ih]

theorem lookup_imagesEnsure (imgs : List (ℕ × List String)) (seg s : ℕ) :
    (List.lookup s (imagesEnsure imgs seg)).getD [] =
      (List.lookup s imgs).getD [] := by
  unfold imagesEnsure
  by_cases h : (List.lookup seg imgs).isSome
  · simp [h]
  · simp only [h, Bool.false_eq_true, if_false, lookup_append_pairs]
    cases hl : List.lookup s imgs with
    | some v => simp
    | none =>
      by_cases hs : s = seg
      · have hb : (s == seg) = true := by simp [hs]
        simp [List.lookup, hb]
      · have hb : (s == seg) = false := by simp [hs]
        simp [List.lookup, hb]

theorem lookup_imagesEnsure_isSome (imgs : List (ℕ × List String)) (seg : ℕ) :
    (List.lookup seg (imagesEnsure imgs seg)).isSome = true := by
  unfold imagesEnsure
  by_cases h : (List.lookup seg imgs).isSome
  · simp [h]
  · simp only [h, Bool.false_eq_true, if_false, lookup_append_pairs]
    cases hl : List.lookup seg imgs with
    | some v => simp
    | none => simp [List.lookup]

theorem imagesEnsure_keys_nodup (imgs : List (ℕ × List String)) (seg : ℕ)
    (h : (imgs.map Prod.fst).Nodup) :
    ((imagesEnsure imgs seg).map Prod.fst).Nodup := by
  unfold imagesEnsure
  by_cases hp : (List.lookup seg imgs).isSome
  · simpa [hp] using h
  · have hmem : seg ∉ imgs.map Prod.fst := by
      intro hm
      rw [← lookup_isSome_iff_mem] at hm
      simp [hm] at hp
    simp only [hp, Bool.false_eq_true, if_false, List.map_append,
      List.map_cons, List.map_nil]
    simp [List.nodup_append, h, hmem]

theorem imagesEnsure_sum (imgs : List (ℕ × List String)) (seg : ℕ) :
    ((imagesEnsure imgs seg).map (fun kv => kv.2.length)).sum =
      (imgs.map (fun kv => kv.2.length)).sum := by
  unfold imagesEnsure
  by_cases h : (List.lookup seg imgs).isSome <;> simp [h]

theorem imagesPush_keys (imgs : List (ℕ × List String)) (seg : ℕ) (x : String) :
    (imagesPush imgs seg x).map Prod.fst = imgs.map Prod.fst := by
  induction imgs with
  | nil => rfl
  | cons kv t ih =>
    obtain ⟨k, v⟩ := kv
    simp only [imagesPush, List.map_cons] at ih ⊢
    by_cases hk : k = seg <;> simp [hk, ih]

theorem lookup_imagesPush (imgs : List (ℕ × List String)) (seg s : ℕ)
    (x : String) :
    List.lookup s (imagesPush imgs seg x) =
      (List.lookup s imgs).map (fun l => if s = seg then l ++ [x] else l) := by
  induction imgs with
  | nil => simp [imagesPush, List.lookup]
  | cons kv t ih =>
    obtain ⟨k, v⟩ := kv
    by_cases hk : k = seg
    · subst hk
      simp only [imagesPush, List.map_cons, if_pos rfl] at ih ⊢
      by_cases hs : s = k
      · subst hs
        have hb : (s == s) = true := by simp
        simp [List.lookup, hb]
      · have hb : (s == k) = false := by simp [hs]
        simp [List.lookup, hb, ih]
    · simp only [imagesPush, List.map_cons, if_neg hk] at ih ⊢
      by_cases hs : s = k
      · subst hs
        have hb : (s == s) = true := by simp
        have hne : ¬(s = seg) := hk
        simp [List.lookup, hb, hne]
      · have hb : (s == k) = false := by simp [hs]
        simp [List.lookup, hb, ih]

theorem imagesPush_not_mem (imgs : List (ℕ × List String)) (seg : ℕ)
    (x : String) (h : seg ∉ imgs.map Prod.fst) : imagesPush imgs seg x = imgs := by
  induction imgs with
  | nil => rfl
  | cons kv t ih =>
    obtain ⟨k, v⟩ := kv
    simp only [List.map_cons, List.mem_cons] at h
    have hk : ¬(k = seg) := fun he => h (Or.inl he.symm)
    have ht : seg ∉ t.map Prod.fst := fun hm => h (Or.inr hm)
    simp only [imagesPush] at ih ⊢
    simp [hk, ih ht]

theorem imagesPush_sum (imgs : List (ℕ × List String)) (seg : ℕ) (x : String)
    (hnd : (imgs.map Prod.fst).Nodup)
    (hsome : (List.lookup seg imgs).isSome = true) :
    ((imagesPush imgs seg x).map (fun kv => kv.2.length)).sum =
      (imgs.map (fun kv => kv.2.length)).sum + 1 := by
  induction imgs with
  | nil => simp [List.lookup] at hsome
  | cons kv t ih =>
    obtain ⟨k, v⟩ := kv
    by_cases hk : k = seg
    · subst hk
      have hnot : k ∉ t.map Prod.fst := by
        simp only [List.map_cons, List.nodup_cons] at hnd
        exact hnd.1
      have hpt := imagesPush_not_mem t k x hnot
      simp only [imagesPush] at hpt
      simp only [imagesPush, List.map_cons, if_pos rfl, hpt]
      simp
      omega
    · simp only [imagesPush, List.map_cons, if_neg hk] at ih ⊢
      have hlt : (List.lookup seg t).isSome = true := by
        have hb : (seg == k) = false := by
          simp only [beq_eq_false_iff_ne, ne_eq]
          exact fun he => hk he.symm
        simpa [List.lookup, hb] using hsome
      have hndt : (t.map Prod.fst).Nodup := by
        simp only [List.map_cons, List.nodup_cons] at hnd
        exact hnd.2
      simp only [List.map_cons, List.sum_cons, ih hndt hlt]
      omega

theorem ensure_push_length (imgs : List (ℕ × List String)) (seg s : ℕ)
    (x : String) :
    ((List.lookup s (imagesPush (imagesEnsure imgs seg) seg x)).getD []).length =
      ((List.lookup s imgs).getD []).length + (if s = seg then 1 else 0) := by
  rw [lookup_imagesPush]
  by_cases hs : s = seg
  · subst hs
    have h2 := lookup_imagesEnsure_isSome imgs s
    obtain ⟨v, hv⟩ := Option.isSome_iff_exists.mp h2
    have h1 := lookup_imagesEnsure imgs s s
    rw [hv] at h1 ⊢
    simp only [Option.getD_some] at h1
    simp [h1]
  · have h1 := lookup_imagesEnsure imgs seg s
    cases hl : List.lookup s (imagesEnsure imgs seg) with
    | some v =>
      rw [hl] at h1
      simp only [Option.getD_some] at h1
      simp [hs, h1]
    | none =>
      rw [hl] at h1
      simp only [Option.getD_none] at h1
      simp [hs, ← h1]

theorem aliasTarget_no_meta (md : PdfMetadata) (a : String)
    (hmeta : hasPlacementMetadata md = false) : aliasTarget md a = none := by
  simp [aliasTarget, hmeta]

theorem reconClaimStep_no_meta_nil (md : PdfMetadata)
    (ext : List (Option String)) (hmeta : hasPlacementMetadata md = false)
    (st : ReconState) (entry : String × ℕ) (hidx : st.allIndices = []) :
    reconClaimStep md ext st entry =
      { st with images := imagesEnsure st.images entry.2 } := by
  simp [reconClaimStep, aliasTarget_no_meta md entry.1 hmeta, claimNextUnused,
    hidx]

theorem reconClaimStep_no_meta_cons (md : PdfMetadata)
    (ext : List (Option String)) (hmeta : hasPlacementMetadata md = false)
    (st : ReconState) (entry : String × ℕ) (i : ℤ) (restIdx : List ℤ)
    (s : String) (hidx : st.allIndices = i :: restIdx) (hi : 0 ≤ i)
    (hs : ext.getD i.toNat none = some s) :
    reconClaimStep md ext st entry =
      { images := imagesPush (imagesEnsure st.images entry.2) entry.2 s
        allIndices := restIdx
        buckets := st.buckets
        usedFallbackAssignment := true
        claimedIdx := st.claimedIdx ++ [i] } := by
  have hs' : ext[i.toNat]?.getD none = some s := by simpa [List.getD] using hs
  simp [reconClaimStep, aliasTarget_no_meta md entry.1 hmeta, claimNextUnused,
    hidx, hi, hs']

theorem recon_fold_no_meta (md : PdfMetadata) (ext : List (Option String))
    (hmeta : hasPlacementMetadata md = false) (order : List (String × ℕ)) :
    ∀ st : ReconState,
      (∀ i ∈ st.allIndices, 0 ≤ i ∧ (ext.getD i.toNat none).isSome = true) →
      (st.images.map Prod.fst).Nodup →
      (order.foldl (reconClaimStep md ext) st).allIndices =
          st.allIndices.drop order.length ∧
      (order.foldl (reconClaimStep md ext) st).claimedIdx =
          st.claimedIdx ++ st.allIndices.take order.length ∧
      ((order.foldl (reconClaimStep md ext) st).images.map Prod.fst).Nodup ∧
      ((order.foldl (reconClaimStep md ext) st).images.map
          (fun kv => kv.2.length)).sum =
        (st.images.map (fun kv => kv.2.length)).sum +
          min order.length st.allIndices.length ∧
      (∀ seg : ℕ, ((List.lookup seg
            (order.foldl (reconClaimStep md ext) st).images).getD []).length =
        ((List.lookup seg st.images).getD []).length +
          (order.take st.allIndices.length).countP (fun e => e.2 == seg)) := by
  induction order with
  | nil =>
    intro st _ hnodup
    simp [hnodup]
  | cons entry order' ih =>
    intro st hvalid hnodup
    cases hidx : st.allIndices with
    | nil =>
      rw [List.foldl_cons, reconClaimStep_no_meta_nil md ext hmeta st entry hidx,
        hidx]
      have hIH := ih
        { images := imagesEnsure st.images entry.2
          allIndices := []
          buckets := st.buckets
          usedFallbackAssignment := st.usedFallbackAssignment
          claimedIdx := st.claimedIdx }
        (by simp)
        (imagesEnsure_keys_nodup st.images entry.2 hnodup)
      obtain ⟨h1, h2, h3, h4, h5⟩ := hIH
      refine ⟨by simpa using h1, by simpa using h2, h3, ?_, ?_⟩
      · rw [h4, imagesEnsure_sum]
        simp
      · intro seg
        rw [h5 seg, lookup_imagesEnsure]
        simp
    | cons i restIdx =>
      obtain ⟨hi, hsome⟩ := hvalid i (by rw [hidx]; exact List.mem_cons_self _ _)
      obtain ⟨s, hs⟩ := Option.isSome_iff_exists.mp hsome
      rw [List.foldl_cons,
        reconClaimStep_no_meta_cons md ext hmeta st entry i restIdx s hidx hi hs]
      have hIH := ih
        { images := imagesPush (imagesEnsure st.images entry.2) entry.2 s
          allIndices := restIdx
          buckets := st.buckets
          usedFallbackAssignment := true
          claimedIdx := st.claimedIdx ++ [i] }
        (by
          intro j hj
          exact hvalid j (by rw [hidx]; exact List.mem_cons_of_mem i hj))
        (by
          have h1 := imagesEnsure_keys_nodup st.images entry.2 hnodup
          have h2 := imagesPush_keys (imagesEnsure st.images entry.2) entry.2 s
          simpa [h2] using h1)
      obtain ⟨h1, h2, h3, h4, h5⟩ := hIH
      refine ⟨?_, ?_, h3, ?_, ?_⟩
      · rw [h1, List.length_cons, List.drop_succ_cons]
      · rw [h2, List.length_cons, List.take_succ_cons]
        simp
      · rw [h4]
        have hsum := imagesPush_sum (imagesEnsure st.images entry.2) entry.2 s
          (imagesEnsure_keys_nodup st.images entry.2 hnodup)
          (lookup_imagesEnsure_isSome st.images entry.2)
        rw [hsum, imagesEnsure_sum]
        simp only [List.length_cons]
        omega
      · intro seg
        rw [h5 seg, ensure_push_length]
        simp only [List.length_cons, List.take_succ_cons, List.countP_cons]
        by_cases hseg : seg = entry.2
        · simp [hseg]
          omega
        · have hb : (entry.2 == seg) = false := by
            simp only [beq_eq_false_iff_ne, ne_eq]
            exact fun he => hseg he.symm
          simp [hseg, hb]

theorem lookup_foldl_ensure (segs : List ℕ) :
    ∀ (imgs : List (ℕ × List String)) (s : ℕ),
      (List.lookup s (segs.foldl imagesEnsure imgs)).getD [] =
        (List.lookup s imgs).getD [] := by
  induction segs with
  | nil => intro imgs s; rfl
  | cons k t ih =>
    intro imgs s
    rw [List.foldl_cons, ih, lookup_imagesEnsure]

theorem sum_foldl_ensure (segs : List ℕ) :
    ∀ imgs : List (ℕ × List String),
      ((segs.foldl imagesEnsure imgs).map (fun kv => kv.2.length)).sum =
        (imgs.map (fun kv => kv.2.length)).sum := by
  induction segs with
  | nil => intro imgs; rfl
  | cons k t ih =>
    intro imgs
    rw [List.foldl_cons, ih, imagesEnsure_sum]

theorem reconstruct_images_eq (md : PdfMetadata) (ext : List (Option String))
    (eps : List (ℕ × ℕ × Option ℤ)) (k : ℕ) :
    (reconstructPprDataFromPdf md ext eps k).images =
      (((List.range k).map (fun i => i + 1)).foldl imagesEnsure
        ((reconstructionOrder md k).foldl (reconClaimStep md ext)
          { images := []
            allIndices := (List.range ext.length).map Int.ofNat
            buckets := buildBuckets md eps
            usedFallbackAssignment := false
            claimedIdx := [] }).images) := rfl

theorem reconstruct_leftover_eq (md : PdfMetadata) (ext : List (Option String))
    (eps : List (ℕ × ℕ × Option ℤ)) (k : ℕ) :
    (reconstructPprDataFromPdf md ext eps k).leftoverImagesCount =
      ((reconstructionOrder md k).foldl (reconClaimStep md ext)
        { images := []
          allIndices := (List.range ext.length).map Int.ofNat
          buckets := buildBuckets md eps
          usedFallbackAssignment := false
          claimedIdx := [] }).allIndices.length := rfl

theorem reconstruct_claimed_eq (md : PdfMetadata) (ext : List (Option String))
    (eps : List (ℕ × ℕ × Option ℤ)) (k : ℕ) :
    (reconstructPprDataFromPdf md ext eps k).claimedIdx =
      ((reconstructionOrder md k).foldl (reconClaimStep md ext)
        { images := []
          allIndices := (List.range ext.length).map Int.ofNat
          buckets := buildBuckets md eps
          usedFallbackAssignment := false
          claimedIdx := [] }).claimedIdx := rfl

theorem initial_indices_valid (extracted : List String) :
    ∀ i ∈ (List.range extracted.length).map Int.ofNat,
      0 ≤ i ∧ ((extracted.map some).getD i.toNat none).isSome = true := by
  intro i hi
  simp only [List.mem_map, List.mem_range] at hi
  obtain ⟨a, ha, rfl⟩ := hi
  refine ⟨Int.ofNat_nonneg a, ?_⟩
  have halen : a < (extracted.map some).length := by simpa using ha
  simp [List.getD, Int.toNat_natCast, List.getElem?_eq_getElem halen]


theorem buildPdfPayload_fields (w1 w2 w3 w4 : List String) (name ts : String) :
    (buildPdfPayload [(1, w1), (2, w2), (3, w3), (4, w4)] name ts).1 =
      { studentName := name
        segments := [(1, w1.length), (2, w2.length), (3, w3.length),
          (4, w4.length)]
        timestamp := ts
        imageManifest := some
          (((segmentAliases 1 w1.length).map (fun a => (a, 1))) ++
            (((segmentAliases 2 w2.length).map (fun a => (a, 2))) ++
              (((segmentAliases 3 w3.length).map (fun a => (a, 3))) ++
                (((segmentAliases 4 w4.length).map (fun a => (a, 4))) ++ []))))
        imagePlacements := none } := by
  simp [buildPdfPayload, segmentNumbers, concatAll, List.lookup]

theorem reconstructionOrder_of_manifest (md : PdfMetadata) (k : ℕ)
    (m : List (String × ℕ)) (hm : md.imageManifest = some m)
    (hlen : m.length = expectedImageTotal md.segments) (hne : m ≠ []) :
    reconstructionOrder md k = m := by
  simp [reconstructionOrder, hm, hlen, hne]

theorem compressSegmentAux_ok_length (f : String → Except Unit String)
    (hf : ∀ u, ∃ r, f u = Except.ok r) (flags : List Bool) :
    ∀ (idx : ℕ) (urls : List String),
      (compressSegmentAux f flags idx urls).1.length = urls.length ∧
      (compressSegmentAux f flags idx urls).2 = [] := by
  intro idx urls
  induction urls generalizing idx with
  | nil => simp [compressSegmentAux]
  | cons url rest ih =>
    obtain ⟨r, hr⟩ := hf url
    simp only [compressSegmentAux, hr]
    split
    case h_1 r2 heq => simp [(ih (idx + 1)).1, (ih (idx + 1)).2]
    case h_2 a heq =>
      by_cases hc : flags[idx]?.getD false = true <;> simp [hc] at heq

theorem countP_aliases (k c s : ℕ) :
    (((segmentAliases k c).map (fun a => (a, k))).countP
      (fun e : String × ℕ => e.2 == s)) = if k = s then c else 0 := by
  have hgen : ∀ l : List String,
      ((l.map (fun a => (a, k))).countP (fun e : String × ℕ => e.2 == s)) =
        if k = s then l.length else 0 := by
    intro l
    induction l with
    | nil => simp
    | cons a t ih =>
      by_cases hk : k = s <;> simp [List.countP_cons, ih, hk]
  rw [hgen]
  simp [segmentAliases]

theorem recon_counts_of_manifest (md : PdfMetadata) (M : List (String × ℕ))
    (hmeta : hasPlacementMetadata md = false)
    (horder : reconstructionOrder md 4 = M)
    (extracted : List String) (eps : List (ℕ × ℕ × Option ℤ))
    (hlen : extracted.length = M.length) (seg : ℕ) :
    ((List.lookup seg (reconstructPprDataFromPdf md (extracted.map some) eps
        4).images).getD []).length = M.countP (fun e => e.2 == seg) := by
  have hvalid : ∀ i ∈ (List.range (extracted.map some).length).map Int.ofNat,
      0 ≤ i ∧ ((extracted.map some).getD i.toNat none).isSome = true := by
    simpa using initial_indices_valid extracted
  obtain ⟨_, _, _, _, hL⟩ := recon_fold_no_meta md (extracted.map some) hmeta
    (reconstructionOrder md 4)
    { images := []
      allIndices := (List.range (extracted.map some).length).map Int.ofNat
      buckets := buildBuckets md eps
      usedFallbackAssignment := false
      claimedIdx := [] } hvalid (by simp)
  rw [reconstruct_images_eq, lookup_foldl_ensure, hL seg]
  have hlen0 :
      (((List.range (extracted.map some).length).map Int.ofNat)).length =
        M.length := by
    simp [hlen]
  simp only [List.lookup, Option.getD_none, List.length_nil, Nat.zero_add]
  rw [horder]
  simp only at hlen0
  rw [hlen0, List.take_length]

/-- C2: for a workspace with 1-3 images in each of the 4 segments, saving
(buildPdfPayload over the compressed per-segment lists — compression with no
failures preserves every list, see compressSegmentAux_ok_length) and then
loading (reconstructPprDataFromPdf over the embedded metadata and the
extracted images — with no render or extraction failure the PDF yields
exactly one extracted image per saved image, in order) reconstructs every
segment's image count exactly.  Since the embedded payload carries no
imagePlacements, every alias is claimed by the sequential fallback, one
extracted image per manifest entry in segment-ascending order. -/
theorem c2_save_load_reconstructs_counts (w1 w2 w3 w4 : List String)
    (name ts : String) (extracted : List String)
    (eps : List (ℕ × ℕ × Option ℤ))
    (hc1 : 1 ≤ w1.length ∧ w1.length ≤ 3)
    (hc2 : 1 ≤ w2.length ∧ w2.length ≤ 3)
    (hc3 : 1 ≤ w3.length ∧ w3.length ≤ 3)
    (hc4 : 1 ≤ w4.length ∧ w4.length ≤ 3)
    (hlen : extracted.length = w1.length + w2.length + w3.length + w4.length) :
    ((List.lookup 1 (reconstructPprDataFromPdf
        (buildPdfPayload [(1, w1), (2, w2), (3, w3), (4, w4)] name ts).1
        (extracted.map some) eps 4).images).getD []).length = w1.length ∧
    ((List.lookup 2 (reconstructPprDataFromPdf
        (buildPdfPayload [(1, w1), (2, w2), (3, w3), (4, w4)] name ts).1
        (extracted.map some) eps 4).images).getD []).length = w2.length ∧
    ((List.lookup 3 (reconstructPprDataFromPdf
        (buildPdfPayload [(1, w1), (2, w2), (3, w3), (4, w4)] name ts).1
        (extracted.map some) eps 4).images).getD []).length = w3.length ∧
    ((List.lookup 4 (reconstructPprDataFromPdf
        (buildPdfPayload [(1, w1), (2, w2), (3, w3), (4, w4)] name ts).1
        (extracted.map some) eps 4).images).getD []).length = w4.length := by
  rw [buildPdfPayload_fields w1 w2 w3 w4 name ts]
  have hmeta : hasPlacementMetadata
      { studentName := name
        segments := [(1, w1.length), (2, w2.length), (3, w3.length),
          (4, w4.length)]
        timestamp := ts
        imageManifest := some
          (((segmentAliases 1 w1.length).map (fun a => (a, 1))) ++
            (((segmentAliases 2 w2.length).map (fun a => (a, 2))) ++
              (((segmentAliases 3 w3.length).map (fun a => (a, 3))) ++
                (((segmentAliases 4 w4.length).map (fun a => (a, 4))) ++ []))))
        imagePlacements := none } = false := rfl
  have hMlen :
      (((segmentAliases 1 w1.length).map (fun a => (a, 1))) ++
        (((segmentAliases 2 w2.length).map (fun a => (a, 2))) ++
          (((segmentAliases 3 w3.length).map (fun a => (a, 3))) ++
            (((segmentAliases 4 w4.length).map (fun a => (a, 4))) ++
              ([] : List (String × ℕ)))))).length =
      w1.length + w2.length + w3.length + w4.length := by
    simp only [List.length_append, List.length_map, segmentAliases,
      List.length_range, List.length_nil]
    omega
  have hMne :
      (((segmentAliases 1 w1.length).map (fun a => (a, 1))) ++
        (((segmentAliases 2 w2.length).map (fun a => (a, 2))) ++
          (((segmentAliases 3 w3.length).map (fun a => (a, 3))) ++
            (((segmentAliases 4 w4.length).map (fun a => (a, 4))) ++
              ([] : List (String × ℕ)))))) ≠ [] := by
    intro h
    have hlen2 := congrArg List.length h
    rw [hMlen] at hlen2
    simp only [List.length_nil] at hlen2
    omega
  have horder := reconstructionOrder_of_manifest
    { studentName := name
      segments := [(1, w1.length), (2, w2.length), (3, w3.length),
        (4, w4.length)]
      timestamp := ts
      imageManifest := some
        (((segmentAliases 1 w1.length).map (fun a => (a, 1))) ++
          (((segmentAliases 2 w2.length).map (fun a => (a, 2))) ++
            (((segmentAliases 3 w3.length).map (fun a => (a, 3))) ++
              (((segmentAliases 4 w4.length).map (fun a => (a, 4))) ++ []))))
      imagePlacements := none } 4 _ rfl
    (by rw [hMlen]; simp [expectedImageTotal]; omega) hMne
  have hcnt := fun seg => recon_counts_of_manifest _ _ hmeta horder extracted
    eps (by rw [hMlen]; exact hlen) seg
  refine ⟨?_, ?_, ?_, ?_⟩
  · rw [hcnt 1]
    simp only [List.countP_append, countP_aliases, List.countP_nil]
    simp
  · rw [hcnt 2]
    simp only [List.countP_append, countP_aliases, List.countP_nil]
    simp
  · rw [hcnt 3]
    simp only [List.countP_append, countP_aliases, List.countP_nil]
    simp
  · rw [hcnt 4]
    simp only [List.countP_append, countP_aliases, List.countP_nil]
    simp

/-- C2 witness: the round trip applied at a concrete workspace with one
image per segment and four extracted images. -/
theorem c2_witness :
    ((List.lookup 1 (reconstructPprDataFromPdf
        (buildPdfPayload [(1, ["a"]), (2, ["b"]), (3, ["c"]), (4, ["d"])]
          "S" "T").1
        (["w", "x", "y", "z"].map some) [] 4).images).getD []).length = 1 ∧
    ((List.lookup 2 (reconstructPprDataFromPdf
        (buildPdfPayload [(1, ["a"]), (2, ["b"]), (3, ["c"]), (4, ["d"])]
          "S" "T").1
        (["w", "x", "y", "z"].map some) [] 4).images).getD []).length = 1 ∧
    ((List.lookup 3 (reconstructPprDataFromPdf
        (buildPdfPayload [(1, ["a"]), (2, ["b"]), (3, ["c"]), (4, ["d"])]
          "S" "T").1
        (["w", "x", "y", "z"].map some) [] 4).images).getD []).length = 1 ∧
    ((List.lookup 4 (reconstructPprDataFromPdf
        (buildPdfPayload [(1, ["a"]), (2, ["b"]), (3, ["c"]), (4, ["d"])]
          "S" "T").1
        (["w", "x", "y", "z"].map some) [] 4).images).getD []).length = 1 := by
  have h := c2_save_load_reconstructs_counts ["a"] ["b"] ["c"] ["d"] "S" "T"
    ["w", "x", "y", "z"] [] (by decide) (by decide) (by decide) (by decide)
    (by decide)
  simpa using h

/-- C10 counterexample: with placement metadata present, the fallback claim
for an alias without a placement record can take an index that a later
alias's bucket also holds, so index 0 is claimed twice: the claim log is not
duplicate-free, segment 1 receives the same extracted image twice, and
assigned-plus-leftover exceeds the number of extracted images. -/
theorem c10_counterexample :
    reconCounterexampleRun.claimedIdx = [0, 0] ∧
    ¬ reconCounterexampleRun.claimedIdx.Nodup ∧
    ((reconCounterexampleRun.images.map (fun kv => kv.2.length)).sum +
      reconCounterexampleRun.leftoverImagesCount ≠ 2) ∧
    ¬ ((List.lookup 1 reconCounterexampleRun.images).getD []).Nodup := by
  decide

/-- C10 (amended): when the document carries no placement metadata — every
file saved by this writer, since the payload never includes imagePlacements —
every claim comes from the sequential unclaimed pool, so each extracted index
is claimed at most once (the claim log is duplicate-free) and the images
assigned across all segments plus leftoverImagesCount equal the number of
extracted images. -/
theorem c10_no_placement_distinct_claims (md : PdfMetadata)
    (extracted : List String) (eps : List (ℕ × ℕ × Option ℤ)) (k : ℕ)
    (hmeta : hasPlacementMetadata md = false) :
    (reconstructPprDataFromPdf md (extracted.map some) eps k).claimedIdx.Nodup ∧
    ((reconstructPprDataFromPdf md (extracted.map some) eps k).images.map
        (fun kv => kv.2.length)).sum +
      (reconstructPprDataFromPdf md (extracted.map some) eps
        k).leftoverImagesCount = extracted.length := by
  have hfold := recon_fold_no_meta md (extracted.map some) hmeta
    (reconstructionOrder md k)
    { images := []
      allIndices := (List.range (extracted.map some).length).map Int.ofNat
      buckets := buildBuckets md eps
      usedFallbackAssignment := false
      claimedIdx := [] }
    (by simpa using initial_indices_valid extracted)
    (by simp)
  obtain ⟨h1, h2, _, h4, _⟩ := hfold
  constructor
  · rw [reconstruct_claimed_eq, h2]
    have hnd : ((List.range (extracted.map some).length).map Int.ofNat).Nodup :=
      (List.nodup_range _).map (fun a b => Int.ofNat.inj)
    exact List.Nodup.sublist (List.take_sublist _ _) (by simpa using hnd)
  · rw [reconstruct_images_eq, sum_foldl_ensure, h4, reconstruct_leftover_eq,
      h1]
    simp only [List.map_nil, List.sum_nil, List.length_drop, List.length_map,
      List.length_range]
    omega

/-- C10 witness: the amended theorem at a one-image manifest without
placement metadata and one extracted image. -/
theorem c10_witness :
    hasPlacementMetadata ⟨"", [(1, 1)], "", some [("A", 1)], none⟩ = false ∧
    ((reconstructPprDataFromPdf ⟨"", [(1, 1)], "", some [("A", 1)], none⟩
        (["x"].map some) [] 4).claimedIdx.Nodup ∧
      ((reconstructPprDataFromPdf ⟨"", [(1, 1)], "", some [("A", 1)], none⟩
          (["x"].map some) [] 4).images.map
          (fun kv => kv.2.length)).sum +
        (reconstructPprDataFromPdf ⟨"", [(1, 1)], "", some [("A", 1)], none⟩
          (["x"].map some) [] 4).leftoverImagesCount = 1) :=
  ⟨by decide, c10_no_placement_distinct_claims
    ⟨"", [(1, 1)], "", some [("A", 1)], none⟩ ["x"] [] 4 (by decide)⟩
